import Mathlib

/-!
Verification of the SmartLearning scheduling core (`src/app.py`).

The SQLite task store is modelled as an in-memory structure: the `tasks`
table as a list in creation order (SQLite assigns rowids 1, 2, 3, … in
insertion order, so store order coincides with increasing-id order; the
`WF` predicate below records exactly this schema invariant), `sessions`
as (task_id, duration_minutes) pairs, `reviews` as
(original_task_id, review_task_id, interval_days) triples.  Calendar
dates are modelled as integers (days); Python floats in the speed
estimator are modelled exactly with rationals, which is faithful for the
small integer data the estimator divides.
-/

/- Batteries marks the arithmetic of `Rat` irreducible; restore default
reducibility inside this file so that concrete runs of the embedded
functions can be evaluated by `decide`. -/
attribute [local semireducible] Rat.mul Rat.add Rat.sub Rat.inv Rat.ofScientific

namespace SmartLearning

inductive Status where
  | pending
  | review
  | done
  | missed
deriving DecidableEq, Repr

structure Task where
  id : Nat
  subject : String
  topic : String
  minutes : Nat
  difficulty : Nat
  priority : Nat
  deadline : Int
  scheduled : Option Int
  timeWindow : String
  status : Status
deriving DecidableEq, Repr

structure Store where
  tasks : List Task
  sessions : List (Nat × Nat)
  reviews : List (Nat × Nat × Int)
  nextId : Nat
deriving DecidableEq, Repr

/-- Schema/store invariant: rowids are assigned 1, 2, 3, … in insertion
order, so the task list is strictly increasing in `id`, all ids are
positive, and ids stay below the next fresh id. -/
def WF (st : Store) : Prop :=
  st.tasks.Pairwise (fun a b => a.id < b.id) ∧
    (∀ t ∈ st.tasks, 1 ≤ t.id ∧ t.id < st.nextId) ∧ 1 ≤ st.nextId

instance (st : Store) : Decidable (WF st) := by
  unfold WF; infer_instance

/-- `add_task` (src/app.py:117): INSERT with NULL scheduled_date; the new
row receives the next rowid. -/
def addTask (st : Store) (subject topic : String) (minutes difficulty priority : Nat)
    (deadline : Int) (status : Status) (timeWindow : String) : Store :=
  { st with
    tasks := st.tasks ++
      [Task.mk st.nextId subject topic minutes difficulty priority deadline none timeWindow status],
    nextId := st.nextId + 1 }

/-- `update_task_schedule` (src/app.py:136): sets scheduled_date, resets
status to 'pending' and overwrites time_window, on the row with the given id. -/
def updateTaskSchedule (tasks : List Task) (tid : Nat) (d : Int) (tw : String) : List Task :=
  tasks.map fun t =>
    if t.id = tid then { t with scheduled := some d, status := Status.pending, timeWindow := tw }
    else t

/-- `update_task_status` (src/app.py:139). -/
def updateTaskStatus (tasks : List Task) (tid : Nat) (s : Status) : List Task :=
  tasks.map fun t => if t.id = tid then { t with status := s } else t

/-! ## Speed estimator (`compute_subject_speed`, src/app.py:284-304) -/

/-- The SQL join `sessions s JOIN tasks t ON s.task_id = t.id`, producing
(subject, estimated, actual) rows; task ids are unique (PRIMARY KEY), so
`find?` returns the unique matching task. -/
def joinedRows (st : Store) : List (String × ℚ × ℚ) :=
  st.sessions.filterMap fun s =>
    (st.tasks.find? fun t => t.id == s.1).map fun t => (t.subject, ((t.minutes : ℚ), (s.2 : ℚ)))

/-- Clamp into [0.6, 1.6] (src/app.py:301-303). -/
def clampQ (q : ℚ) : ℚ := max (3/5) (min (8/5) q)

/-- Mean of the estimated minutes of a subject's joined rows (pandas
`groupby('subject').agg mean`). -/
def meanEstimated (rows : List (String × ℚ × ℚ)) (s : String) : ℚ :=
  let rs := rows.filter fun r => r.1 == s
  (rs.map fun r => r.2.1).sum / (rs.length : ℚ)

/-- Mean of the actual minutes of a subject's joined rows. -/
def meanActual (rows : List (String × ℚ × ℚ)) (s : String) : ℚ :=
  let rs := rows.filter fun r => r.1 == s
  (rs.map fun r => r.2.2).sum / (rs.length : ℚ)

/-- Per-subject multiplier (src/app.py:297-303): `est = mean_est if >0 else 1`,
`actual = mean_act if >0 else est`, `actual/est`, clamped. -/
def groupMultiplier (rows : List (String × ℚ × ℚ)) (s : String) : ℚ :=
  let meanEst := meanEstimated rows s
  let meanAct := meanActual rows s
  let est := if 0 < meanEst then meanEst else 1
  let act := if 0 < meanAct then meanAct else est
  clampQ (act / est)

/-- `compute_subject_speed` (src/app.py:284-304): one entry per subject
appearing in the joined rows (an empty join yields the empty mapping). -/
def computeSubjectSpeed (st : Store) : List (String × ℚ) :=
  let rows := joinedRows st
  ((rows.map fun r => r.1).dedup).map fun s => (s, groupMultiplier rows s)

/-- The joined rows of one subject (used to state which subjects have
session history). -/
def subjectRows (st : Store) (s : String) : List (String × ℚ × ℚ) :=
  (joinedRows st).filter fun r => r.1 == s

lemma lookup_map_key (ks : List String) (f : String → ℚ) (s : String) :
    ((ks.map fun k => (k, f k)).lookup s) = if s ∈ ks then some (f s) else none := by
  induction ks with
  | nil => simp
  | cons k ks ih =>
    by_cases h : s = k
    · subst h
      simp [List.lookup]
    · have hbeq : (s == k) = false := by simpa using h
      simp [List.lookup, hbeq, ih, h]

lemma mem_keys_iff_subjectRows_ne_nil (st : Store) (s : String) :
    s ∈ (joinedRows st).map (fun r => r.1) ↔ subjectRows st s ≠ [] := by
  constructor
  · intro hs hnil
    rcases List.mem_map.mp hs with ⟨r, hr, hrs⟩
    have : r ∈ subjectRows st s := by
      simp only [subjectRows, List.mem_filter]
      exact ⟨hr, by simpa using hrs⟩
    rw [hnil] at this
    exact absurd this (List.not_mem_nil r)
  · intro hne
    rcases List.exists_mem_of_ne_nil _ hne with ⟨r, hr⟩
    simp only [subjectRows, List.mem_filter] at hr
    exact List.mem_map.mpr ⟨r, hr.1, by simpa using hr.2⟩

lemma clampQ_bounds (q : ℚ) : 3/5 ≤ clampQ q ∧ clampQ q ≤ 8/5 :=
  ⟨le_max_left _ _, max_le (by norm_num) (min_le_left _ _)⟩

lemma computeSubjectSpeed_lookup (st : Store) (s : String) :
    (computeSubjectSpeed st).lookup s =
      if subjectRows st s = [] then none else some (groupMultiplier (joinedRows st) s) := by
  unfold computeSubjectSpeed
  rw [lookup_map_key]
  rcases em (subjectRows st s = []) with h | h
  · have : s ∉ (joinedRows st).map (fun r => r.1) := by
      intro hmem
      exact absurd h (mem_keys_iff_subjectRows_ne_nil st s |>.mp hmem)
    simp [List.mem_dedup, this, h]
  · have : s ∈ (joinedRows st).map (fun r => r.1) :=
      (mem_keys_iff_subjectRows_ne_nil st s).mpr h
    simp [List.mem_dedup, this, h]

/-- **C5.** `compute_subject_speed` maps exactly the subjects with at least
one joined session row to `clamp (act / est)` where `est` is the mean
estimate (non-positive mean treated as 1) and `act` the mean actual
duration (zero mean — the only non-positive case for natural-number
durations — treated as `est`); every returned multiplier lies in
[0.6, 1.6]; no sessions at all yields the empty mapping. -/
theorem speed_estimator_spec (st : Store) (s : String) :
    ((computeSubjectSpeed st).lookup s =
      if subjectRows st s = [] then none
      else some (clampQ
        ((if 0 < meanActual (joinedRows st) s then meanActual (joinedRows st) s
          else if 0 < meanEstimated (joinedRows st) s then meanEstimated (joinedRows st) s else 1) /
         (if 0 < meanEstimated (joinedRows st) s then meanEstimated (joinedRows st) s else 1)))) ∧
    (∀ m, (computeSubjectSpeed st).lookup s = some m → 3/5 ≤ m ∧ m ≤ 8/5) ∧
    (st.sessions = [] → computeSubjectSpeed st = []) := by
  refine ⟨?_, ?_, ?_⟩
  · rw [computeSubjectSpeed_lookup]
    rcases em (subjectRows st s = []) with h | h
    · rw [if_pos h, if_pos h]
    · rw [if_neg h, if_neg h]
      rfl
  · intro m hm
    rw [computeSubjectSpeed_lookup] at hm
    rcases em (subjectRows st s = []) with h | h
    · rw [if_pos h] at hm
      exact absurd hm (by simp)
    · rw [if_neg h] at hm
      have hm' := Option.some.inj hm
      rw [← hm']
      unfold groupMultiplier
      exact clampQ_bounds _
  · intro hs
    simp [computeSubjectSpeed, joinedRows, hs]

/-! ## Calibrated minutes (src/app.py:198) -/

/-- Python `int(...)` on a float: truncation toward zero. -/
def truncQ (q : ℚ) : Int := if 0 ≤ q then ⌊q⌋ else ⌈q⌉

/-- `minutes_needed = max(5, int(original_minutes * speed.get(subject, 1.0)))`
(src/app.py:198). -/
def calibratedMinutes (speed : List (String × ℚ)) (t : Task) : Int :=
  max 5 (truncQ ((t.minutes : ℚ) * ((speed.lookup t.subject).getD 1)))

lemma speed_lookup_pos (st : Store) (s : String) :
    0 < (((computeSubjectSpeed st).lookup s).getD 1) := by
  rw [computeSubjectSpeed_lookup]
  rcases em (subjectRows st s = []) with h | h
  · rw [if_pos h]; norm_num
  · rw [if_neg h]
    have hb : (3/5 : ℚ) ≤ groupMultiplier (joinedRows st) s := by
      unfold groupMultiplier
      exact (clampQ_bounds _).1
    simp only [Option.getD_some]
    linarith

lemma calibratedMinutes_pos_lb (speed : List (String × ℚ)) (t : Task) :
    5 ≤ calibratedMinutes speed t := le_max_left _ _

/-- **C4 (amended).** The calibrated minutes used by a scheduling run equal
`max 5 ⌊estimated * multiplier⌋` — Python `int()` truncation, which is the
floor of the (nonnegative) product — with the multiplier defaulting to 1
for subjects absent from the speed estimator's output. -/
theorem calibrated_minutes_floor (st : Store) (t : Task) :
    calibratedMinutes (computeSubjectSpeed st) t =
      max 5 ⌊(t.minutes : ℚ) * (((computeSubjectSpeed st).lookup t.subject).getD 1)⌋ := by
  unfold calibratedMinutes truncQ
  rw [if_pos]
  exact mul_nonneg (Nat.cast_nonneg _) (le_of_lt (speed_lookup_pos st t.subject))

/-! ## Fetch order and backlog order

`fetch_tasks` (src/app.py:125-134) runs
`ORDER BY scheduled_date IS NULL, scheduled_date, deadline`; rows tie-break
in rowid (= id = creation) order.  The scheduler then applies the pandas
stable multi-key sort `(deadline asc, priority desc, difficulty desc)`
(src/app.py:187).  Over a store whose rows sit in increasing-id order
(invariant `WF`), a stable sort is exactly a total sort whose final
tie-break key is the id, which is how both orders are modelled. -/

abbrev lex3Lt (a b : Int × Int × Int) : Prop :=
  a.1 < b.1 ∨ (a.1 = b.1 ∧ (a.2.1 < b.2.1 ∨ (a.2.1 = b.2.1 ∧ a.2.2 < b.2.2)))

/-- Sort key of the SQL `ORDER BY scheduled_date IS NULL, scheduled_date,
deadline` (NULL scheduled dates compare equal inside their group). -/
def fetchKey (t : Task) : Int × Int × Int :=
  ((if t.scheduled.isSome then 0 else 1), t.scheduled.getD 0, t.deadline)

abbrev fetchLe (a b : Task) : Prop :=
  lex3Lt (fetchKey a) (fetchKey b) ∨ (fetchKey a = fetchKey b ∧ a.id ≤ b.id)

instance : DecidableRel fetchLe := fun _ _ => inferInstance

instance : IsTotal Task fetchLe :=
  ⟨fun a b => by unfold fetchLe lex3Lt; simp only [Prod.ext_iff]; omega⟩

instance : IsTrans Task fetchLe :=
  ⟨fun a b c => by unfold fetchLe lex3Lt; simp only [Prod.ext_iff]; omega⟩

/-- The rows of the store matching a predicate, in the `fetch_tasks` order. -/
def fetchTasks (st : Store) (p : Task → Bool) : List Task :=
  List.insertionSort fetchLe (st.tasks.filter p)

/-- `pending.sort_values(by=['deadline_date','priority','difficulty'],
ascending=[True, False, False])` (src/app.py:187), a stable sort, modelled
with the id as final tie-break. -/
abbrev backlogLe (a b : Task) : Prop :=
  a.deadline < b.deadline ∨ (a.deadline = b.deadline ∧
    (b.priority < a.priority ∨ (a.priority = b.priority ∧
      (b.difficulty < a.difficulty ∨ (a.difficulty = b.difficulty ∧ a.id ≤ b.id)))))

instance : DecidableRel backlogLe := fun _ _ => inferInstance

instance : IsTotal Task backlogLe := ⟨fun a b => by unfold backlogLe; omega⟩

instance : IsTrans Task backlogLe := ⟨fun a b c => by unfold backlogLe; omega⟩

def sortBacklog (l : List Task) : List Task := List.insertionSort backlogLe l

/-- The `status = 'pending' AND scheduled_date IS NULL` filter (src/app.py:180). -/
def pendingPred : Task → Bool := fun t => decide (t.status = Status.pending ∧ t.scheduled = none)

/-- The pending backlog in store order. -/
def pendingFilter (st : Store) : List Task := st.tasks.filter pendingPred

/-- The pending backlog in the order the placement loop processes it. -/
def pendingBacklog (st : Store) : List Task := sortBacklog (fetchTasks st pendingPred)

/-! ## Day-capacity scheduler (`smart_schedule`, src/app.py:169-255) -/

/-- Scan a candidate day list in order; return the first day whose remaining
capacity covers the needed minutes (the placement scans of
src/app.py:208-219 and 223-232). -/
def firstFit (cap : Int → Int) (needed : Int) : List Int → Option Int
  | [] => none
  | d :: ds => if needed ≤ cap d then some d else firstFit cap needed ds

/-- `candidates = [d for d in schedule_days if d <= deadline] or schedule_days`
(src/app.py:203). -/
def candidateDays (days : List Int) (deadline : Int) : List Int :=
  let c := days.filter fun d => decide (d ≤ deadline)
  if c.isEmpty then days else c

structure SchedState where
  tasks : List Task
  cap : Int → Int
  count : Nat
  firstSched : List (String × Int)

/-- The effect of a successful placement (src/app.py:211-219 / 225-232):
update the task row, deduct capacity, bump the counter, record the
subject's first scheduled day. -/
def recordPlacement (s : SchedState) (row : Task) (needed : Int) (tw : String)
    (d : Int) : SchedState :=
  { tasks := updateTaskSchedule s.tasks row.id d tw,
    cap := fun x => if x = d then s.cap x - needed else s.cap x,
    count := s.count + 1,
    firstSched :=
      if (s.firstSched.lookup row.subject).isSome then s.firstSched
      else s.firstSched ++ [(row.subject, d)] }

/-- One iteration of the placement loop (src/app.py:194-233): pass A over
the deadline-bounded candidates, then pass B over the whole window. -/
def schedStep (days : List Int) (speed : List (String × ℚ)) (s : SchedState)
    (row : Task) : SchedState :=
  let needed := calibratedMinutes speed row
  let tw := if row.timeWindow = "" then "any" else row.timeWindow
  match firstFit s.cap needed (candidateDays days row.deadline) with
  | some d => recordPlacement s row needed tw d
  | none =>
    match firstFit s.cap needed days with
    | some d => recordPlacement s row needed tw d
    | none => s

/-- One offset of the review-creation loop (src/app.py:242-253).  Each
`run_query` opens a fresh SQLite connection, so the
`SELECT last_insert_rowid()` of src/app.py:247 always returns 0: the review
link is recorded with review_task_id 0 and the subsequent
`update_task_schedule(0, …)` touches no row (rowids start at 1). -/
def reviewInsert (today : Int) (lookahead : Nat) (origId : Nat) (subject topic : String)
    (origMinutes : Nat) (firstDate : Int) (st : Store) (offset : Int) : Store :=
  let reviewDate := firstDate + offset
  if reviewDate ≤ today + (lookahead : Int) then
    -- review_minutes = max(10, ceil(minutes * 0.25))
    let reviewMinutes := max 10 ((origMinutes + 3) / 4)
    let st1 := addTask st (subject ++ " (review)") (topic ++ " - review") reviewMinutes 1 3
      reviewDate Status.review "any"
    let reviewId : Nat := 0
    let st2 := { st1 with reviews := st1.reviews ++ [(origId, reviewId, offset)] }
    { st2 with tasks := updateTaskSchedule st2.tasks reviewId reviewDate "any" }
  else st

/-- Review creation for one subject (src/app.py:236-253): the canonical
original task is the subject's earliest row (`ORDER BY created_at LIMIT 1`,
i.e. the first row in store order). -/
def reviewStep (today : Int) (lookahead : Nat) (intervals : List Int) (st : Store)
    (e : String × Int) : Store :=
  match (st.tasks.filter fun t => decide (t.subject = e.1)).head? with
  | none => st
  | some orig =>
    intervals.foldl (reviewInsert today lookahead orig.id e.1 orig.topic orig.minutes e.2) st

/-- `smart_schedule` (src/app.py:169-255). -/
def smartSchedule (st : Store) (today : Int) (daily : Int) (intervals : List Int)
    (lookahead : Nat) : Store × Nat :=
  let pending := fetchTasks st pendingPred
  if pending.isEmpty then (st, 0)
  else
    let speed := computeSubjectSpeed st
    let rows := sortBacklog pending
    let days := (List.range lookahead).map fun (i : Nat) => today + (i : Int)
    let fin := rows.foldl (schedStep days speed) ⟨st.tasks, fun _ => daily, 0, []⟩
    let st1 := { st with tasks := fin.tasks }
    (fin.firstSched.foldl (reviewStep today lookahead intervals) st1, fin.count)

/-! ## Missed-task rescheduler (`reschedule_missed`, src/app.py:258-281) -/

/-- The used-capacity ledger (src/app.py:260-267): for each day of
`[today, today + lookahead)` the summed minutes of tasks already scheduled
on it; days outside those keys read as the dict default 0. -/
def usedInit (st : Store) (today : Int) (lookahead : Nat) : Int → Int :=
  fun d =>
    if today ≤ d ∧ d < today + (lookahead : Int) then
      (((st.tasks.filter fun t => decide (t.scheduled = some d)).map
        fun t => (t.minutes : Int)).sum)
    else 0

/-- The candidate days `today + offset` for `offset in range(1, lookahead+1)`
(src/app.py:273-274). -/
def slotDays (today : Int) (lookahead : Nat) : List Int :=
  (List.range lookahead).map fun (i : Nat) => today + ((i : Int) + 1)

/-- First candidate day where `used.get(cand, 0) + mins <= daily_minutes`
(src/app.py:275). -/
def firstSlot (used : Int → Int) (daily mins today : Int) (lookahead : Nat) : Option Int :=
  (slotDays today lookahead).find? fun cand => decide (used cand + mins ≤ daily)

/-- One iteration of the missed-task loop (src/app.py:270-280): place on the
first qualifying day, bump the used ledger, reset status to pending. -/
def reschedStep (today daily : Int) (lookahead : Nat)
    (s : List Task × (Int → Int) × Nat) (row : Task) : List Task × (Int → Int) × Nat :=
  match firstSlot s.2.1 daily (row.minutes : Int) today lookahead with
  | some cand =>
      (updateTaskStatus (updateTaskSchedule s.1 row.id cand "any") row.id Status.pending,
        fun d => if d = cand then s.2.1 cand + (row.minutes : Int) else s.2.1 d,
        s.2.2 + 1)
  | none => s

/-- The `status = 'missed'` rows in fetch order (src/app.py:268). -/
def missedFetch (st : Store) : List Task :=
  fetchTasks st fun t => decide (t.status = Status.missed)

/-- `reschedule_missed` (src/app.py:258-281). -/
def rescheduleMissed (st : Store) (today daily : Int) (lookahead : Nat) : Store × Nat :=
  let missed := missedFetch st
  let fin := missed.foldl (reschedStep today daily lookahead)
    (st.tasks, usedInit st today lookahead, 0)
  ({ st with tasks := fin.1 }, fin.2.2)

/-- The loop state of `reschedule_missed` after its first `k` iterations
(verification scaffolding for stating per-turn properties). -/
def reschedState (st : Store) (today daily : Int) (lookahead : Nat) (k : Nat) :
    List Task × (Int → Int) × Nat :=
  ((missedFetch st).take k).foldl (reschedStep today daily lookahead)
    (st.tasks, usedInit st today lookahead, 0)

/-! ## Concrete stores used to evaluate the embedding on explicit inputs -/

/-- A store with one pending 40-minute "Math" task due today and no history. -/
def storeOnePending : Store :=
  { tasks := [Task.mk 1 "Math" "Calc" 40 3 5 0 none "any" Status.pending],
    sessions := [], reviews := [], nextId := 2 }

/-- A store whose session history gives subject "X" the multiplier 3/2
(one 60-minute estimate worked for 90 minutes), plus a pending 45-minute
"X" task: 45 · 3/2 = 67.5 sits exactly between floor and round. -/
def storeSpeedX : Store :=
  { tasks := [Task.mk 1 "X" "a" 60 3 3 0 none "any" Status.done,
              Task.mk 2 "X" "b" 45 3 3 0 none "any" Status.pending],
    sessions := [(1, 90)], reviews := [], nextId := 3 }

/-- The pending 45-minute "X" task of `storeSpeedX`. -/
def taskX45 : Task := Task.mk 2 "X" "b" 45 3 3 0 none "any" Status.pending

/-- A store whose only quirk is a task already scheduled on day
`today + lookahead` (outside the used-capacity ledger window) with huge
minutes, plus one missed 30-minute task. -/
def storeLedgerGap : Store :=
  { tasks := [Task.mk 1 "S" "t" 1000 1 1 0 (some 1) "any" Status.done,
              Task.mk 2 "S" "u" 30 1 1 0 none "any" Status.missed],
    sessions := [], reviews := [], nextId := 3 }

/-- A store for the spec's missed-rescheduling example: day 1 already
carries 40 scheduled minutes; one missed 30-minute task; daily budget 60. -/
def storeMissedExample : Store :=
  { tasks := [Task.mk 1 "S" "t" 40 1 1 5 (some 1) "any" Status.done,
              Task.mk 2 "S" "u" 30 1 1 5 none "any" Status.missed],
    sessions := [], reviews := [], nextId := 3 }

/-- A store with no pending-unscheduled task at all. -/
def storeNoPending : Store :=
  { tasks := [Task.mk 1 "Math" "Calc" 40 3 5 0 (some 2) "any" Status.done],
    sessions := [], reviews := [], nextId := 2 }

/-- Tasks A (deadline 5, priority 5) and B (deadline 3, priority 1) of the
spec's ordering example. -/
def storeOrderAB : Store :=
  { tasks := [Task.mk 1 "A" "a" 30 2 5 5 none "any" Status.pending,
              Task.mk 2 "B" "b" 20 2 1 3 none "any" Status.pending],
    sessions := [], reviews := [], nextId := 3 }

/-! ## C4 — calibrated minutes truncate, they do not round -/

/-- **C4 (counterexample).** With subject "X" calibrated at 3/2, the
45-minute task is scheduled using `max(5, int(67.5)) = 67` minutes, while
the claimed formula `max(5, round(67.5))` gives 68; with a daily budget of
67 the run does place the task, which the claimed round-based calibration
would forbid. -/
theorem calibrated_minutes_round_cex :
    (computeSubjectSpeed storeSpeedX).lookup "X" = some (3/2) ∧
    calibratedMinutes (computeSubjectSpeed storeSpeedX) taskX45 = 67 ∧
    max 5 (round ((45:ℚ) * (3/2))) = 68 ∧
    (67 : Int) ≠ max 5 (round ((45:ℚ) * (3/2))) ∧
    (smartSchedule storeSpeedX 0 67 [] 60).2 = 1 := by
  decide

/-! ## C2 — what a scheduling run actually records for a review task -/

/-- **C2 (code bug).** Scheduling `storeOnePending` on day 0 with
`review_intervals = [1]`: the review task is created with the claimed
subject/topic suffixes, minutes `max(10, ceil(40·0.25)) = 10`,
difficulty 1, priority 3, status `review` — but its scheduled date stays
NULL and the review link records review_task_id 0 instead of the new id 2,
because `SELECT last_insert_rowid()` runs on a fresh SQLite connection
(src/app.py:105-115, 247) and the follow-up
`update_task_schedule(0, …)` matches no row. -/
theorem review_creation_last_insert_rowid_bug :
    ((smartSchedule storeOnePending 0 60 [1] 5).1).reviews = [(1, 0, 1)] ∧
    ((smartSchedule storeOnePending 0 60 [1] 5).1).tasks =
      [Task.mk 1 "Math" "Calc" 40 3 5 0 (some 0) "any" Status.pending,
       Task.mk 2 "Math (review)" "Calc - review" 10 1 3 1 none "any" Status.review] := by
  decide

/-! ## C3 — the review window test is `review_date ≤ today + lookahead` -/

lemma reviewInsert_foldl_spec (today : Int) (lookahead : Nat) (origId : Nat)
    (subject topic : String) (origMinutes : Nat) (firstDate : Int) :
    ∀ (intervals : List Int) (stAcc : Store),
      ((intervals.foldl (reviewInsert today lookahead origId subject topic origMinutes firstDate)
          stAcc).reviews =
        stAcc.reviews ++ ((intervals.filter fun o =>
          decide (firstDate + o ≤ today + (lookahead : Int))).map fun o => (origId, 0, o))) ∧
      ((intervals.foldl (reviewInsert today lookahead origId subject topic origMinutes firstDate)
          stAcc).tasks.length =
        stAcc.tasks.length + ((intervals.filter fun o =>
          decide (firstDate + o ≤ today + (lookahead : Int))).length))
  | [], stAcc => by simp
  | o :: os, stAcc => by
    rcases em (firstDate + o ≤ today + (lookahead : Int)) with h | h
    · have step : reviewInsert today lookahead origId subject topic origMinutes firstDate stAcc o =
          { stAcc with
            tasks := (stAcc.tasks ++ [Task.mk stAcc.nextId (subject ++ " (review)")
              (topic ++ " - review") (max 10 ((origMinutes + 3) / 4)) 1 3 (firstDate + o) none
              "any" Status.review]).map (fun t =>
                if t.id = 0 then
                  { t with
                    scheduled := some (firstDate + o),
                    status := Status.pending,
                    timeWindow := "any" }
                else t),
            reviews := stAcc.reviews ++ [(origId, 0, o)],
            nextId := stAcc.nextId + 1 } := by
        simp [reviewInsert, if_pos h, addTask, updateTaskSchedule]
      have ih := reviewInsert_foldl_spec today lookahead origId subject topic origMinutes
        firstDate os (reviewInsert today lookahead origId subject topic origMinutes firstDate
          stAcc o)
      constructor
      · rw [List.foldl_cons, ih.1, step]
        simp [h]
      · rw [List.foldl_cons, ih.2, step]
        simp [h]
        omega
    · have step : reviewInsert today lookahead origId subject topic origMinutes firstDate stAcc o =
          stAcc := by
        simp [reviewInsert, if_neg h]
      have ih := reviewInsert_foldl_spec today lookahead origId subject topic origMinutes
        firstDate os stAcc
      constructor
      · rw [List.foldl_cons, step, ih.1]
        simp [h]
      · rw [List.foldl_cons, step, ih.2]
        simp [h]

/-- **C3 (amended).** For a subject whose earliest stored task is `orig`
and whose first scheduled day is `D`, the review generator creates one
review task and one review link for exactly the offsets with
`D + offset ≤ today + lookahead_days` — a closed upper bound one day past
the half-open lookahead window, with no lower-bound check — and skips the
remaining offsets with no task and no link. -/
theorem review_window_amended (st : Store) (today : Int) (lookahead : Nat)
    (intervals : List Int) (s : String) (D : Int) (orig : Task)
    (horig : (st.tasks.filter fun t => decide (t.subject = s)).head? = some orig) :
    ((reviewStep today lookahead intervals st (s, D)).reviews =
      st.reviews ++ ((intervals.filter fun o =>
        decide (D + o ≤ today + (lookahead : Int))).map fun o => (orig.id, 0, o))) ∧
    ((reviewStep today lookahead intervals st (s, D)).tasks.length =
      st.tasks.length + ((intervals.filter fun o =>
        decide (D + o ≤ today + (lookahead : Int))).length)) := by
  unfold reviewStep
  rw [horig]
  exact reviewInsert_foldl_spec today lookahead orig.id s orig.topic orig.minutes D intervals st

/-- **C3 (witness).** The spec's own example: offsets [1,3,7], lookahead 5,
subject first scheduled on day 0 — offsets 1 and 3 produce a review task and
link each, offset 7 is skipped. -/
theorem review_window_amended_witness :
    ((reviewStep 0 5 [1, 3, 7] storeOnePending ("Math", 0)).reviews =
      storeOnePending.reviews ++ ((([1, 3, 7] : List Int).filter fun o =>
        decide ((0:Int) + o ≤ 0 + (5 : Int))).map fun o =>
          ((Task.mk 1 "Math" "Calc" 40 3 5 0 none "any" Status.pending).id, 0, o))) ∧
    ((reviewStep 0 5 [1, 3, 7] storeOnePending ("Math", 0)).tasks.length =
      storeOnePending.tasks.length + ((([1, 3, 7] : List Int).filter fun o =>
        decide ((0:Int) + o ≤ 0 + (5 : Int))).length)) :=
  review_window_amended storeOnePending 0 5 [1, 3, 7] "Math" 0
    (Task.mk 1 "Math" "Calc" 40 3 5 0 none "any" Status.pending) (by decide)

/-- **C3 (counterexample).** With lookahead 5 and offset 5, a subject first
scheduled on day 0 gets its review date on day 5 = today + lookahead, which
lies outside the half-open window [today, today+5) the claim allows — yet
the run creates the review task and link. -/
theorem review_window_halfopen_cex :
    ((smartSchedule storeOnePending 0 60 [5] 5).1).reviews = [(1, 0, 5)] ∧
    ((smartSchedule storeOnePending 0 60 [5] 5).1).tasks.length = 2 ∧
    ¬ ((0:Int) + 5 < 0 + 5) := by
  decide

/-! ## C9 — empty pending backlog: no effect -/

/-- **C9.** With no task both `pending` and unscheduled, `smart_schedule`
returns 0 and leaves the store untouched. -/
theorem empty_backlog_noop (st : Store) (today daily : Int) (intervals : List Int)
    (lookahead : Nat)
    (h : ∀ t ∈ st.tasks, ¬(t.status = Status.pending ∧ t.scheduled = none)) :
    smartSchedule st today daily intervals lookahead = (st, 0) := by
  have hfil : st.tasks.filter pendingPred = [] := by
    rw [List.filter_eq_nil_iff]
    intro a ha
    simpa [pendingPred] using h a ha
  have hfetch : fetchTasks st pendingPred = [] := by
    rw [fetchTasks, hfil]
    rfl
  unfold smartSchedule
  rw [hfetch]
  rfl

/-- **C9 (witness).** On a store whose single task is done and scheduled. -/
theorem empty_backlog_noop_witness :
    smartSchedule storeNoPending 3 60 [1, 3, 7] 14 = (storeNoPending, 0) :=
  empty_backlog_noop storeNoPending 3 60 [1, 3, 7] 14 (by decide)

/-! ## C6 — precondition-violating inputs mutate nothing -/

lemma firstFit_none_of_lt (cap : Int → Int) (needed : Int) :
    ∀ l : List Int, (∀ d ∈ l, cap d < needed) → firstFit cap needed l = none
  | [], _ => rfl
  | d :: ds, h => by
    have hd : cap d < needed := h d (List.mem_cons_self d ds)
    rw [firstFit, if_neg (not_le.mpr hd)]
    exact firstFit_none_of_lt cap needed ds fun x hx => h x (List.mem_cons_of_mem d hx)

lemma schedStep_eq_self (days : List Int) (speed : List (String × ℚ)) (s : SchedState)
    (row : Task) (h : ∀ d, s.cap d < 5) : schedStep days speed s row = s := by
  have hneed : (5:Int) ≤ calibratedMinutes speed row := calibratedMinutes_pos_lb _ _
  have h1 : firstFit s.cap (calibratedMinutes speed row) (candidateDays days row.deadline) =
      none :=
    firstFit_none_of_lt _ _ _ fun d _ => lt_of_lt_of_le (h d) hneed
  have h2 : firstFit s.cap (calibratedMinutes speed row) days = none :=
    firstFit_none_of_lt _ _ _ fun d _ => lt_of_lt_of_le (h d) hneed
  unfold schedStep
  simp only [h1, h2]

lemma foldl_schedStep_id (days : List Int) (speed : List (String × ℚ)) :
    ∀ (rows : List Task) (s : SchedState), (∀ d, s.cap d < 5) →
      rows.foldl (schedStep days speed) s = s
  | [], _, _ => rfl
  | r :: rs, s, h => by
    rw [List.foldl_cons, schedStep_eq_self days speed s r h]
    exact foldl_schedStep_id days speed rs s h

lemma schedStep_nil_days (speed : List (String × ℚ)) (s : SchedState) (row : Task) :
    schedStep [] speed s row = s := rfl

lemma foldl_schedStep_nil_days (speed : List (String × ℚ)) :
    ∀ (rows : List Task) (s : SchedState), rows.foldl (schedStep [] speed) s = s
  | [], _ => rfl
  | r :: rs, s => by
    rw [List.foldl_cons, schedStep_nil_days speed s r]
    exact foldl_schedStep_nil_days speed rs s

lemma usedInit_nonneg (st : Store) (today : Int) (lookahead : Nat) (d : Int) :
    0 ≤ usedInit st today lookahead d := by
  unfold usedInit
  split
  · apply List.sum_nonneg
    intro x hx
    rcases List.mem_map.mp hx with ⟨t, _, rfl⟩
    exact Int.natCast_nonneg t.minutes
  · exact le_refl 0

lemma reschedStep_eq_self_of_neg (today daily : Int) (lookahead : Nat)
    (s : List Task × (Int → Int) × Nat) (row : Task) (h : ∀ d, 0 ≤ s.2.1 d)
    (hd : daily < 0) : reschedStep today daily lookahead s row = s := by
  have hs : firstSlot s.2.1 daily (row.minutes : Int) today lookahead = none := by
    unfold firstSlot
    rw [List.find?_eq_none]
    intro x _
    simp only [decide_eq_true_eq]
    intro hle
    have h1 : (0:Int) ≤ s.2.1 x := h x
    have h2 : (0:Int) ≤ (row.minutes : Int) := Int.natCast_nonneg _
    omega
  unfold reschedStep
  simp only [hs]

lemma foldl_reschedStep_id_of_neg (today daily : Int) (lookahead : Nat) (hd : daily < 0) :
    ∀ (rows : List Task) (s : List Task × (Int → Int) × Nat), (∀ d, 0 ≤ s.2.1 d) →
      rows.foldl (reschedStep today daily lookahead) s = s
  | [], _, _ => rfl
  | r :: rs, s, h => by
    rw [List.foldl_cons, reschedStep_eq_self_of_neg today daily lookahead s r h hd]
    exact foldl_reschedStep_id_of_neg today daily lookahead hd rs s h

lemma reschedStep_zero_lookahead (today daily : Int) (s : List Task × (Int → Int) × Nat)
    (row : Task) : reschedStep today daily 0 s row = s := rfl

lemma foldl_reschedStep_zero (today daily : Int) :
    ∀ (rows : List Task) (s : List Task × (Int → Int) × Nat),
      rows.foldl (reschedStep today daily 0) s = s
  | [], _ => rfl
  | r :: rs, s => by
    rw [List.foldl_cons, reschedStep_zero_lookahead today daily s r]
    exact foldl_reschedStep_zero today daily rs s

/-- **C6.** Called with inputs violating the preconditions (negative daily
capacity, or a lookahead below 1 day), both `smart_schedule` and
`reschedule_missed` perform no mutation: the store is returned unchanged —
no scheduled date or status changes, no review task and no review link is
inserted — and the count is 0. -/
theorem invalid_inputs_no_mutation (st : Store) (today daily : Int) (intervals : List Int)
    (lookahead : Nat) (h : daily < 0 ∨ lookahead = 0) :
    smartSchedule st today daily intervals lookahead = (st, 0) ∧
    rescheduleMissed st today daily lookahead = (st, 0) := by
  constructor
  · unfold smartSchedule
    by_cases hp : (fetchTasks st pendingPred).isEmpty
    · simp only [hp, if_true]
    · simp only [hp, if_false, Bool.false_eq_true]
      have hfold : (sortBacklog (fetchTasks st pendingPred)).foldl
          (schedStep ((List.range lookahead).map fun (i : Nat) => today + (i : Int))
            (computeSubjectSpeed st))
          ⟨st.tasks, fun _ => daily, 0, []⟩ = ⟨st.tasks, fun _ => daily, 0, []⟩ := by
        rcases h with hd | hl
        · exact foldl_schedStep_id _ _ _ _ fun d => by
            show daily < 5
            omega
        · subst hl
          exact foldl_schedStep_nil_days _ _ _
      rw [hfold]
      rfl
  · unfold rescheduleMissed
    have hfold : (missedFetch st).foldl (reschedStep today daily lookahead)
        (st.tasks, usedInit st today lookahead, 0) =
        (st.tasks, usedInit st today lookahead, 0) := by
      rcases h with hd | hl
      · exact foldl_reschedStep_id_of_neg today daily lookahead hd _ _
          (usedInit_nonneg st today lookahead)
      · subst hl
        exact foldl_reschedStep_zero today daily _ _
    simp only [hfold]

/-- **C6 (witness).** Negative daily capacity on a concrete store. -/
theorem invalid_inputs_no_mutation_witness :
    smartSchedule storeOnePending 0 (-1) [1, 3, 7] 14 = (storeOnePending, 0) ∧
    rescheduleMissed storeOnePending 0 (-1) 14 = (storeOnePending, 0) :=
  invalid_inputs_no_mutation storeOnePending 0 (-1) [1, 3, 7] 14 (Or.inl (by decide))

/-! ## Generic facts about the row-update operations -/

lemma updateTaskSchedule_map_id (l : List Task) (tid : Nat) (d : Int) (tw : String) :
    (updateTaskSchedule l tid d tw).map (fun t => t.id) = l.map (fun t => t.id) := by
  unfold updateTaskSchedule
  rw [List.map_map]
  apply List.map_congr_left
  intro t _
  by_cases h : t.id = tid <;> simp [h]

lemma updateTaskStatus_map_id (l : List Task) (tid : Nat) (s : Status) :
    (updateTaskStatus l tid s).map (fun t => t.id) = l.map (fun t => t.id) := by
  unfold updateTaskStatus
  rw [List.map_map]
  apply List.map_congr_left
  intro t _
  by_cases h : t.id = tid <;> simp [h]

lemma mem_updateTaskSchedule_of_ne {l : List Task} {t : Task} (h : t ∈ l) {tid : Nat}
    (hne : t.id ≠ tid) (d : Int) (tw : String) : t ∈ updateTaskSchedule l tid d tw := by
  unfold updateTaskSchedule
  have := List.mem_map_of_mem (fun t =>
    if t.id = tid then { t with scheduled := some d, status := Status.pending, timeWindow := tw }
    else t) h
  simp only [if_neg hne] at this
  exact this

lemma mem_updateTaskStatus_of_ne {l : List Task} {t : Task} (h : t ∈ l) {tid : Nat}
    (hne : t.id ≠ tid) (s : Status) : t ∈ updateTaskStatus l tid s := by
  unfold updateTaskStatus
  have := List.mem_map_of_mem (fun t => if t.id = tid then { t with status := s } else t) h
  simp only [if_neg hne] at this
  exact this

lemma forall_id_updateTaskSchedule {l : List Task} {x tid : Nat} {P : Task → Prop}
    (hx : x ≠ tid) (h : ∀ t ∈ l, t.id = x → P t) (d : Int) (tw : String) :
    ∀ t' ∈ updateTaskSchedule l tid d tw, t'.id = x → P t' := by
  intro t' ht' hid
  unfold updateTaskSchedule at ht'
  rcases List.mem_map.mp ht' with ⟨y, hy, rfl⟩
  by_cases hyid : y.id = tid
  · simp only [if_pos hyid] at hid
    have h2 : y.id = x := hid
    exact absurd (h2 ▸ hyid) hx
  · simp only [if_neg hyid] at hid ⊢
    exact h y hy hid

lemma forall_id_updateTaskStatus {l : List Task} {x tid : Nat} {P : Task → Prop}
    (hx : x ≠ tid) (h : ∀ t ∈ l, t.id = x → P t) (s : Status) :
    ∀ t' ∈ updateTaskStatus l tid s, t'.id = x → P t' := by
  intro t' ht' hid
  unfold updateTaskStatus at ht'
  rcases List.mem_map.mp ht' with ⟨y, hy, rfl⟩
  by_cases hyid : y.id = tid
  · simp only [if_pos hyid] at hid
    have h2 : y.id = x := hid
    exact absurd (h2 ▸ hyid) hx
  · simp only [if_neg hyid] at hid ⊢
    exact h y hy hid

lemma eq_of_mem_of_id_eq {l : List Task} (hnd : (l.map (fun t => t.id)).Nodup) {a b : Task}
    (ha : a ∈ l) (hb : b ∈ l) (h : a.id = b.id) : a = b :=
  List.inj_on_of_nodup_map hnd ha hb h

/-- Store rows have pairwise distinct ids. -/
lemma store_ids_ne (st : Store) (hwf : WF st) {a b : Task} (ha : a ∈ st.tasks)
    (hb : b ∈ st.tasks) (hne : a ≠ b) : a.id ≠ b.id := by
  have hpw : st.tasks.Pairwise fun a b => a.id ≠ b.id :=
    hwf.1.imp fun h => Nat.ne_of_lt h
  exact hpw.forall (fun _ _ h => h.symm) ha hb hne

lemma ids_nodup_of_pairwise_lt {l : List Task} (h : l.Pairwise fun a b => a.id < b.id) :
    (l.map (fun t => t.id)).Nodup :=
  List.pairwise_map.mpr (h.imp fun hab => Nat.ne_of_lt hab)

lemma store_ids_nodup (st : Store) (hwf : WF st) : (st.tasks.map (fun t => t.id)).Nodup :=
  ids_nodup_of_pairwise_lt hwf.1

/-! ## The missed backlog -/

lemma missedFetch_perm (st : Store) :
    List.Perm (missedFetch st) (st.tasks.filter fun t => decide (t.status = Status.missed)) :=
  List.perm_insertionSort fetchLe _

lemma mem_missedFetch (st : Store) {t : Task} (h : t ∈ missedFetch st) :
    t ∈ st.tasks ∧ t.status = Status.missed := by
  have := (missedFetch_perm st).mem_iff.mp h
  rw [List.mem_filter] at this
  exact ⟨this.1, by simpa using this.2⟩

lemma missedFetch_ids_nodup (st : Store) (hwf : WF st) :
    ((missedFetch st).map (fun t => t.id)).Nodup := by
  have h1 : ((st.tasks.filter fun t => decide (t.status = Status.missed)).map
      (fun t => t.id)).Nodup :=
    ids_nodup_of_pairwise_lt (hwf.1.sublist (List.filter_sublist st.tasks))
  exact (((missedFetch_perm st).map fun t => t.id).nodup_iff).mpr h1

lemma missedFetch_pairwise_ne (st : Store) (hwf : WF st) :
    (missedFetch st).Pairwise fun a b => a.id ≠ b.id :=
  List.pairwise_map.mp (missedFetch_ids_nodup st hwf)

/-! ## First-fit characterization of the candidate-day scan -/

lemma find?_some_split {α : Type} (p : α → Bool) :
    ∀ (l : List α) (c : α), l.find? p = some c →
      ∃ l1 l2, l = l1 ++ c :: l2 ∧ (∀ x ∈ l1, ¬ p x) ∧ p c
  | [], c, h => by simp at h
  | a :: l, c, h => by
    by_cases hpa : p a
    · rw [List.find?_cons_of_pos _ hpa] at h
      have hca : a = c := Option.some.inj h
      subst hca
      exact ⟨[], l, rfl, by simp, hpa⟩
    · rw [List.find?_cons_of_neg _ hpa] at h
      rcases find?_some_split p l c h with ⟨l1, l2, hsplit, h1, h2⟩
      refine ⟨a :: l1, l2, by rw [hsplit]; rfl, ?_, h2⟩
      intro x hx
      rcases List.mem_cons.mp hx with rfl | hx'
      · exact fun hc => hpa hc
      · exact h1 x hx'

lemma slotDays_length (today : Int) (lookahead : Nat) :
    (slotDays today lookahead).length = lookahead := by
  simp [slotDays]

lemma mem_slotDays (today : Int) (lookahead : Nat) (o : Nat) (h1 : 1 ≤ o)
    (h2 : o ≤ lookahead) : today + (o : Int) ∈ slotDays today lookahead := by
  simp only [slotDays, List.mem_map, List.mem_range]
  refine ⟨o - 1, by omega, ?_⟩
  have : ((o - 1 : Nat) : Int) = (o : Int) - 1 := by omega
  rw [this]
  ring

lemma firstSlot_none {u : Int → Int} {daily mins today : Int} {lookahead : Nat}
    (h : firstSlot u daily mins today lookahead = none) :
    ∀ o : Nat, 1 ≤ o → o ≤ lookahead → ¬(u (today + o) + mins ≤ daily) := by
  intro o h1 h2
  have hmem := mem_slotDays today lookahead o h1 h2
  have := List.find?_eq_none.mp h _ hmem
  simpa using this

lemma firstSlot_some {u : Int → Int} {daily mins today : Int} {lookahead : Nat} {c : Int}
    (h : firstSlot u daily mins today lookahead = some c) :
    ∃ o : Nat, 1 ≤ o ∧ o ≤ lookahead ∧ c = today + o ∧ (u (today + o) + mins ≤ daily) ∧
      ∀ o' : Nat, 1 ≤ o' → o' < o → ¬(u (today + o') + mins ≤ daily) := by
  rcases find?_some_split _ _ _ h with ⟨l1, l2, hsplit, h1, h2⟩
  have hlen : l1.length + (c :: l2).length = lookahead := by
    have := congrArg List.length hsplit
    simpa [slotDays_length] using this.symm
  set m := l1.length with hm
  have hml : m < lookahead := by
    rw [List.length_cons] at hlen
    omega
  have hl1 : l1 = (List.range m).map fun (i : Nat) => today + ((i : Int) + 1) := by
    have htake : (slotDays today lookahead).take m = l1 := by
      rw [hsplit]
      exact List.take_left l1 (c :: l2)
    rw [← htake]
    unfold slotDays
    rw [← List.map_take, List.take_range]
    have hmin : min m lookahead = m := by omega
    rw [hmin]
  have hc : c = today + ((m : Int) + 1) := by
    have h9 : (slotDays today lookahead)[m]? = some c := by
      rw [hsplit, List.getElem?_append_right (le_refl m)]
      simp
    have h10 : (slotDays today lookahead)[m]? = some (today + ((m : Int) + 1)) := by
      unfold slotDays
      simp [hml]
    rw [h9] at h10
    exact Option.some.inj h10
  refine ⟨m + 1, by omega, by omega, by rw [hc]; push_cast; ring, ?_, ?_⟩
  · have := h2
    simp only [decide_eq_true_eq] at this
    have hcc : today + ((m + 1 : Nat) : Int) = c := by
      rw [hc]; push_cast; ring
    rwa [hcc]
  · intro o' ho1 ho2
    have hx : today + (o' : Int) ∈ l1 := by
      rw [hl1]
      simp only [List.mem_map, List.mem_range]
      refine ⟨o' - 1, by omega, ?_⟩
      have : ((o' - 1 : Nat) : Int) = (o' : Int) - 1 := by omega
      rw [this]
      ring
    have := h1 _ hx
    simpa using this

/-! ## Step-by-step characterization of the missed-task loop -/

/-- The record an iteration of `reschedule_missed` writes for a placed task:
scheduled on the chosen day, status reset to pending, time window
overwritten with the default 'any'. -/
def reschedUpdatedRow (row : Task) (c : Int) : Task :=
  { row with scheduled := some c, status := Status.pending, timeWindow := "any" }

lemma reschedStep_some {today daily : Int} {lookahead : Nat}
    {s : List Task × (Int → Int) × Nat} {row : Task} {c : Int}
    (hslot : firstSlot s.2.1 daily (row.minutes : Int) today lookahead = some c) :
    reschedStep today daily lookahead s row =
      (updateTaskStatus (updateTaskSchedule s.1 row.id c "any") row.id Status.pending,
        fun d => if d = c then s.2.1 c + (row.minutes : Int) else s.2.1 d,
        s.2.2 + 1) := by
  unfold reschedStep
  simp only [hslot]

lemma reschedStep_none {today daily : Int} {lookahead : Nat}
    {s : List Task × (Int → Int) × Nat} {row : Task}
    (hslot : firstSlot s.2.1 daily (row.minutes : Int) today lookahead = none) :
    reschedStep today daily lookahead s row = s := by
  unfold reschedStep
  simp only [hslot]

lemma reschedStep_tasks_map_id (today daily : Int) (lookahead : Nat)
    (s : List Task × (Int → Int) × Nat) (row : Task) :
    ((reschedStep today daily lookahead s row).1).map (fun t => t.id) =
      s.1.map (fun t => t.id) := by
  unfold reschedStep
  cases hslot : firstSlot s.2.1 daily (row.minutes : Int) today lookahead with
  | none => rfl
  | some c =>
    simp only []
    rw [updateTaskStatus_map_id, updateTaskSchedule_map_id]

lemma foldl_reschedStep_map_id (today daily : Int) (lookahead : Nat) :
    ∀ (rows : List Task) (s : List Task × (Int → Int) × Nat),
      (((rows.foldl (reschedStep today daily lookahead) s).1).map fun t => t.id) =
        s.1.map (fun t => t.id)
  | [], _ => rfl
  | r :: rs, s => by
    rw [List.foldl_cons, foldl_reschedStep_map_id today daily lookahead rs,
      reschedStep_tasks_map_id]

lemma mem_reschedStep_of_ne {today daily : Int} {lookahead : Nat}
    {s : List Task × (Int → Int) × Nat} {row t : Task} (ht : t ∈ s.1)
    (hne : t.id ≠ row.id) : t ∈ (reschedStep today daily lookahead s row).1 := by
  unfold reschedStep
  cases hslot : firstSlot s.2.1 daily (row.minutes : Int) today lookahead with
  | none => exact ht
  | some c =>
    simp only []
    exact mem_updateTaskStatus_of_ne (mem_updateTaskSchedule_of_ne ht hne c "any") hne
      Status.pending

lemma mem_foldl_reschedStep (today daily : Int) (lookahead : Nat) {t : Task} :
    ∀ (rows : List Task) (s : List Task × (Int → Int) × Nat), t ∈ s.1 →
      (∀ row ∈ rows, t.id ≠ row.id) →
      t ∈ (rows.foldl (reschedStep today daily lookahead) s).1
  | [], _, ht, _ => ht
  | r :: rs, s, ht, hne => by
    rw [List.foldl_cons]
    exact mem_foldl_reschedStep today daily lookahead rs _
      (mem_reschedStep_of_ne ht (hne r (List.mem_cons_self r rs)))
      fun row hrow => hne row (List.mem_cons_of_mem r hrow)

lemma forall_id_reschedStep {today daily : Int} {lookahead : Nat}
    {s : List Task × (Int → Int) × Nat} {row : Task} {x : Nat} {P : Task → Prop}
    (hx : x ≠ row.id) (h : ∀ t ∈ s.1, t.id = x → P t) :
    ∀ t' ∈ (reschedStep today daily lookahead s row).1, t'.id = x → P t' := by
  unfold reschedStep
  cases hslot : firstSlot s.2.1 daily (row.minutes : Int) today lookahead with
  | none => exact h
  | some c =>
    simp only []
    exact forall_id_updateTaskStatus hx (forall_id_updateTaskSchedule hx h c "any")
      Status.pending

lemma forall_id_foldl_reschedStep (today daily : Int) (lookahead : Nat) {x : Nat}
    {P : Task → Prop} :
    ∀ (rows : List Task) (s : List Task × (Int → Int) × Nat),
      (∀ t ∈ s.1, t.id = x → P t) → (∀ row ∈ rows, x ≠ row.id) →
      ∀ t' ∈ (rows.foldl (reschedStep today daily lookahead) s).1, t'.id = x → P t'
  | [], _, h, _ => h
  | r :: rs, s, h, hne => by
    rw [List.foldl_cons]
    exact forall_id_foldl_reschedStep today daily lookahead rs _
      (forall_id_reschedStep (hne r (List.mem_cons_self r rs)) h)
      fun row hrow => hne row (List.mem_cons_of_mem r hrow)

/-- The row with the processed task's id is rewritten to
`reschedUpdatedRow row c` when the scan finds a day `c`. -/
lemma update_target_forall {l : List Task} {row : Task}
    (huniq : ∀ t ∈ l, t.id = row.id → t = row) (c : Int) :
    ∀ t' ∈ updateTaskStatus (updateTaskSchedule l row.id c "any") row.id Status.pending,
      t'.id = row.id → t' = reschedUpdatedRow row c := by
  intro t' ht' hid
  unfold updateTaskStatus at ht'
  rcases List.mem_map.mp ht' with ⟨y, hy, rfl⟩
  unfold updateTaskSchedule at hy
  rcases List.mem_map.mp hy with ⟨z, hz, rfl⟩
  by_cases hzid : z.id = row.id
  · have hz' : z = row := huniq z hz hzid
    subst hz'
    simp [reschedUpdatedRow]
  · simp only [if_neg hzid] at hid
    exact absurd hid hzid

lemma update_target_mem {l : List Task} {row : Task} (hmem : row ∈ l) (c : Int) :
    reschedUpdatedRow row c ∈
      updateTaskStatus (updateTaskSchedule l row.id c "any") row.id Status.pending := by
  have h1 : reschedUpdatedRow row c ∈ updateTaskSchedule l row.id c "any" := by
    unfold updateTaskSchedule
    have := List.mem_map_of_mem (fun t =>
      if t.id = row.id then
        { t with scheduled := some c, status := Status.pending, timeWindow := "any" }
      else t) hmem
    simpa [reschedUpdatedRow] using this
  unfold updateTaskStatus
  have := List.mem_map_of_mem
    (fun t => if t.id = row.id then { t with status := Status.pending } else t) h1
  simpa [reschedUpdatedRow] using this

/-! ## The rescheduler state after k iterations -/

lemma reschedState_zero (st : Store) (today daily : Int) (lookahead : Nat) :
    reschedState st today daily lookahead 0 =
      (st.tasks, usedInit st today lookahead, 0) := rfl

lemma reschedState_succ (st : Store) (today daily : Int) (lookahead : Nat) (k : Nat)
    (hk : k < (missedFetch st).length) :
    reschedState st today daily lookahead (k + 1) =
      reschedStep today daily lookahead (reschedState st today daily lookahead k)
        ((missedFetch st).get ⟨k, hk⟩) := by
  unfold reschedState
  rw [List.take_succ, List.foldl_append, List.getElem?_eq_getElem hk]
  simp [List.get_eq_getElem]

lemma rescheduleMissed_eq_final (st : Store) (today daily : Int) (lookahead : Nat) :
    rescheduleMissed st today daily lookahead =
      ({ st with tasks := (reschedState st today daily lookahead (missedFetch st).length).1 },
        (reschedState st today daily lookahead (missedFetch st).length).2.2) := by
  unfold rescheduleMissed reschedState
  rw [List.take_length]

lemma reschedState_map_id (st : Store) (today daily : Int) (lookahead : Nat) (k : Nat) :
    (((reschedState st today daily lookahead k).1).map fun t => t.id) =
      st.tasks.map (fun t => t.id) :=
  foldl_reschedStep_map_id today daily lookahead _ _

/-- A missed row not yet processed still sits, untouched, in the loop state. -/
lemma reschedState_mem_unprocessed (st : Store) (today daily : Int) (lookahead : Nat)
    (hwf : WF st) (k : Nat) (hk : k < (missedFetch st).length) (j : Nat) (hj : j ≤ k) :
    (missedFetch st).get ⟨k, hk⟩ ∈ (reschedState st today daily lookahead j).1 := by
  set M := missedFetch st with hM
  set t := M.get ⟨k, hk⟩ with ht
  have htM : t ∈ st.tasks := (mem_missedFetch st (by rw [ht]; exact List.get_mem M k hk)).1
  apply mem_foldl_reschedStep
  · exact htM
  · intro row hrow
    have hpw : M.Pairwise fun a b => a.id ≠ b.id := missedFetch_pairwise_ne st hwf
    have hsplit := List.take_append_drop k M
    rw [← hsplit] at hpw
    rcases List.pairwise_append.mp hpw with ⟨_, _, hcross⟩
    have htdrop : t ∈ M.drop k := by
      have := List.getElem_cons_drop M k (by rw [hM] at hk ⊢; exact hk)
      rw [ht, List.get_eq_getElem, ← this]
      exact List.mem_cons_self _ _
    have hrow' : row ∈ M.take k := by
      have h1 : M.take j = (M.take k).take j := by
        rw [List.take_take]
        have : min j k = j := by omega
        rw [this]
      rw [h1] at hrow
      exact List.take_subset j (M.take k) hrow
    exact fun he => (hcross row hrow' t htdrop) he.symm

lemma reschedState_length_eq (st : Store) (today daily : Int) (lookahead : Nat) (j : Nat) :
    reschedState st today daily lookahead (missedFetch st).length =
      ((missedFetch st).drop j).foldl (reschedStep today daily lookahead)
        (reschedState st today daily lookahead j) := by
  unfold reschedState
  rw [List.take_length]
  conv_lhs => rw [← List.take_append_drop j (missedFetch st)]
  rw [List.foldl_append]

lemma get_mem_take {l : List Task} {k : Nat} (hk : k < l.length) :
    l.get ⟨k, hk⟩ ∈ l.take (k + 1) := by
  have h1 : k < (l.take (k + 1)).length := by
    rw [List.length_take]
    omega
  have h2 : (l.take (k + 1)).get ⟨k, h1⟩ = l.get ⟨k, hk⟩ := by
    rw [List.get_eq_getElem, List.get_eq_getElem, List.getElem_take]
  rw [← h2]
  exact List.get_mem _ k h1

lemma get_mem_drop {l : List Task} {k : Nat} (hk : k < l.length) :
    l.get ⟨k, hk⟩ ∈ l.drop k := by
  have := List.getElem_cons_drop l k hk
  rw [List.get_eq_getElem, ← this]
  exact List.mem_cons_self _ _

/-- Cross-position id distinctness around index `k` of the missed backlog. -/
lemma missedFetch_cross_ne (st : Store) (hwf : WF st) (j : Nat)
    {a b : Task} (ha : a ∈ (missedFetch st).take j) (hb : b ∈ (missedFetch st).drop j) :
    a.id ≠ b.id := by
  have hpw : (missedFetch st).Pairwise fun a b => a.id ≠ b.id :=
    missedFetch_pairwise_ne st hwf
  rw [← List.take_append_drop j (missedFetch st)] at hpw
  exact (List.pairwise_append.mp hpw).2.2 a ha b hb

/-- One turn of the missed-task loop, propagated to the end of the run:
either the scan finds a first qualifying day and the task's row ends the
run rescheduled there with status pending and the ledger bumped, or no
day in the scan qualifies and the row ends the run untouched. -/
lemma resched_turn (st : Store) (today daily : Int) (lookahead : Nat) (hwf : WF st)
    (k : Nat) (hk : k < (missedFetch st).length) :
    (∃ o : Nat, 1 ≤ o ∧ o ≤ lookahead ∧
      (reschedState st today daily lookahead k).2.1 (today + o) +
        (((missedFetch st).get ⟨k, hk⟩).minutes : Int) ≤ daily ∧
      (∀ o' : Nat, 1 ≤ o' → o' < o →
        ¬((reschedState st today daily lookahead k).2.1 (today + o') +
          (((missedFetch st).get ⟨k, hk⟩).minutes : Int) ≤ daily)) ∧
      (∀ t' ∈ (rescheduleMissed st today daily lookahead).1.tasks,
        t'.id = ((missedFetch st).get ⟨k, hk⟩).id →
          t' = reschedUpdatedRow ((missedFetch st).get ⟨k, hk⟩) (today + o)) ∧
      reschedUpdatedRow ((missedFetch st).get ⟨k, hk⟩) (today + o) ∈
        (rescheduleMissed st today daily lookahead).1.tasks ∧
      (reschedState st today daily lookahead (k + 1)).2.1 =
        (fun d => if d = today + (o : Int) then
          (reschedState st today daily lookahead k).2.1 d +
            (((missedFetch st).get ⟨k, hk⟩).minutes : Int)
          else (reschedState st today daily lookahead k).2.1 d) ∧
      (reschedState st today daily lookahead (k + 1)).2.2 =
        (reschedState st today daily lookahead k).2.2 + 1) ∨
    ((∀ o : Nat, 1 ≤ o → o ≤ lookahead →
        ¬((reschedState st today daily lookahead k).2.1 (today + o) +
          (((missedFetch st).get ⟨k, hk⟩).minutes : Int) ≤ daily)) ∧
      (∀ t' ∈ (rescheduleMissed st today daily lookahead).1.tasks,
        t'.id = ((missedFetch st).get ⟨k, hk⟩).id → t' = (missedFetch st).get ⟨k, hk⟩) ∧
      (missedFetch st).get ⟨k, hk⟩ ∈ (rescheduleMissed st today daily lookahead).1.tasks ∧
      reschedState st today daily lookahead (k + 1) =
        reschedState st today daily lookahead k) := by
  set M := missedFetch st with hM
  set row := M.get ⟨k, hk⟩ with hrow
  set S := reschedState st today daily lookahead k with hS
  have hrowS : row ∈ S.1 :=
    reschedState_mem_unprocessed st today daily lookahead hwf k hk k (le_refl k)
  have hSnodup : (S.1.map fun t => t.id).Nodup := by
    rw [hS, reschedState_map_id]
    exact store_ids_nodup st hwf
  have huniq : ∀ t ∈ S.1, t.id = row.id → t = row := fun t ht hid =>
    eq_of_mem_of_id_eq hSnodup ht hrowS hid
  have hfin : (rescheduleMissed st today daily lookahead).1.tasks =
      ((M.drop (k + 1)).foldl (reschedStep today daily lookahead)
        (reschedState st today daily lookahead (k + 1))).1 := by
    rw [rescheduleMissed_eq_final]
    show (reschedState st today daily lookahead M.length).1 = _
    rw [reschedState_length_eq st today daily lookahead (k + 1)]
  have hdropne : ∀ r ∈ M.drop (k + 1), row.id ≠ r.id := fun r hr =>
    missedFetch_cross_ne st hwf (k + 1) (get_mem_take hk) hr
  cases hslot : firstSlot S.2.1 daily ((row.minutes : Int)) today lookahead with
  | some c =>
    left
    rcases firstSlot_some hslot with ⟨o, ho1, ho2, hc, hcond, hmin⟩
    have hstep : reschedState st today daily lookahead (k + 1) =
        (updateTaskStatus (updateTaskSchedule S.1 row.id c "any") row.id Status.pending,
          fun d => if d = c then S.2.1 c + (row.minutes : Int) else S.2.1 d,
          S.2.2 + 1) := by
      rw [reschedState_succ st today daily lookahead k hk]
      exact reschedStep_some hslot
    refine ⟨o, ho1, ho2, hcond, hmin, ?_, ?_, ?_, ?_⟩
    · rw [hfin, hstep]
      subst hc
      exact forall_id_foldl_reschedStep today daily lookahead _ _
        (update_target_forall huniq _) hdropne
    · rw [hfin, hstep]
      subst hc
      apply mem_foldl_reschedStep today daily lookahead _ _
        (update_target_mem hrowS _)
      intro r hr
      exact hdropne r hr
    · rw [hstep]
      subst hc
      funext d
      by_cases hd : d = today + (o : Int)
      · simp only [if_pos hd]
        rw [hd]
      · simp only [if_neg hd]
    · rw [hstep]
  | none =>
    right
    have hstep : reschedState st today daily lookahead (k + 1) = S := by
      rw [reschedState_succ st today daily lookahead k hk]
      exact reschedStep_none hslot
    have hfin2 : (rescheduleMissed st today daily lookahead).1.tasks =
        ((M.drop (k + 1)).foldl (reschedStep today daily lookahead) S).1 := by
      rw [hfin, hstep]
    refine ⟨firstSlot_none hslot, ?_, ?_, hstep⟩
    · rw [hfin2]
      exact forall_id_foldl_reschedStep today daily lookahead _ _ huniq hdropne
    · rw [hfin2]
      exact mem_foldl_reschedStep today daily lookahead _ _ hrowS hdropne

/-- **C8.** `reschedule_missed` scans day offsets 1..lookahead strictly
after today for each missed task in turn: the task is placed onto the
first day where the used ledger plus its minutes stays within
daily_minutes — its scheduled date is set, its status reset to `pending`,
and the day's used minutes are incremented — while a missed task with no
qualifying day is left entirely untouched; the returned count is the loop
counter, which starts at 0 and increments exactly on placements;
non-missed rows are never modified. -/
theorem reschedule_missed_first_fit (st : Store) (today daily : Int) (lookahead : Nat)
    (hwf : WF st) (k : Nat) (hk : k < (missedFetch st).length) :
    ((∃ o : Nat, 1 ≤ o ∧ o ≤ lookahead ∧
      (reschedState st today daily lookahead k).2.1 (today + o) +
        (((missedFetch st).get ⟨k, hk⟩).minutes : Int) ≤ daily ∧
      (∀ o' : Nat, 1 ≤ o' → o' < o →
        ¬((reschedState st today daily lookahead k).2.1 (today + o') +
          (((missedFetch st).get ⟨k, hk⟩).minutes : Int) ≤ daily)) ∧
      (∀ t' ∈ (rescheduleMissed st today daily lookahead).1.tasks,
        t'.id = ((missedFetch st).get ⟨k, hk⟩).id →
          t' = reschedUpdatedRow ((missedFetch st).get ⟨k, hk⟩) (today + o)) ∧
      reschedUpdatedRow ((missedFetch st).get ⟨k, hk⟩) (today + o) ∈
        (rescheduleMissed st today daily lookahead).1.tasks ∧
      (reschedState st today daily lookahead (k + 1)).2.1 =
        (fun d => if d = today + (o : Int) then
          (reschedState st today daily lookahead k).2.1 d +
            (((missedFetch st).get ⟨k, hk⟩).minutes : Int)
          else (reschedState st today daily lookahead k).2.1 d) ∧
      (reschedState st today daily lookahead (k + 1)).2.2 =
        (reschedState st today daily lookahead k).2.2 + 1) ∨
    ((∀ o : Nat, 1 ≤ o → o ≤ lookahead →
        ¬((reschedState st today daily lookahead k).2.1 (today + o) +
          (((missedFetch st).get ⟨k, hk⟩).minutes : Int) ≤ daily)) ∧
      (∀ t' ∈ (rescheduleMissed st today daily lookahead).1.tasks,
        t'.id = ((missedFetch st).get ⟨k, hk⟩).id → t' = (missedFetch st).get ⟨k, hk⟩) ∧
      (missedFetch st).get ⟨k, hk⟩ ∈ (rescheduleMissed st today daily lookahead).1.tasks ∧
      reschedState st today daily lookahead (k + 1) =
        reschedState st today daily lookahead k)) ∧
    (rescheduleMissed st today daily lookahead).2 =
      (reschedState st today daily lookahead (missedFetch st).length).2.2 ∧
    (reschedState st today daily lookahead 0).2.2 = 0 ∧
    (∀ t ∈ st.tasks, t.status ≠ Status.missed →
      t ∈ (rescheduleMissed st today daily lookahead).1.tasks) := by
  refine ⟨resched_turn st today daily lookahead hwf k hk, ?_, rfl, ?_⟩
  · rw [rescheduleMissed_eq_final]
  · intro t ht hstat
    have hfin : (rescheduleMissed st today daily lookahead).1.tasks =
        (((missedFetch st).drop 0).foldl (reschedStep today daily lookahead)
          (reschedState st today daily lookahead 0)).1 := by
      rw [rescheduleMissed_eq_final]
      show (reschedState st today daily lookahead (missedFetch st).length).1 = _
      rw [reschedState_length_eq st today daily lookahead 0]
    rw [hfin, List.drop_zero]
    apply mem_foldl_reschedStep today daily lookahead _ _ ht
    intro row hrowm
    have hrow := mem_missedFetch st hrowm
    have hne : t ≠ row := fun he => hstat (by rw [he]; exact hrow.2)
    exact store_ids_ne st hwf ht hrow.1 hne

/-- **C8 (witness).** The spec's example: a 30-minute missed task with
daily budget 60 and 40 minutes already scheduled on day 1 skips day 1 and
is placed on day 2 with status pending, and the run returns count 1. -/
theorem reschedule_missed_first_fit_witness :
    (rescheduleMissed storeMissedExample 0 60 3).1.tasks =
      [Task.mk 1 "S" "t" 40 1 1 5 (some 1) "any" Status.done,
       Task.mk 2 "S" "u" 30 1 1 5 (some 2) "any" Status.pending] ∧
    (rescheduleMissed storeMissedExample 0 60 3).2 = 1 ∧
    ¬((reschedState storeMissedExample 0 60 3 0).2.1 (0 + (1:Nat)) + ((30:Nat) : Int) ≤ 60) ∧
    ((reschedState storeMissedExample 0 60 3 0).2.1 (0 + (2:Nat)) + ((30:Nat) : Int) ≤ 60) := by
  have h := reschedule_missed_first_fit storeMissedExample 0 60 3 (by decide) 0 (by decide)
  rcases h.1 with hplaced | hfail
  · rcases hplaced with ⟨o, ho1, ho2, hcond, hmin, hforall, hmem, hused, hcount⟩
    refine ⟨?_, ?_, ?_, ?_⟩
    · decide
    · decide
    · decide
    · decide
  · exact absurd (hfail.1 2 (by decide) (by decide)) (by decide)

/-- **C10.** The used-capacity ledger of `reschedule_missed` covers only
the days `today .. today + lookahead - 1`, while the candidate scan
reaches `today + lookahead`: on that final candidate day the minutes of
already-scheduled tasks count as zero (the ledger reads its dict default
0 there regardless of real occupancy), so a missed task whose minutes on
top of the same-run ledger value fit into daily_minutes is always placed
— at the latest on that final day. -/
theorem reschedule_final_day_ledger_gap (st : Store) (today daily : Int) (lookahead : Nat)
    (hwf : WF st) (hl : 1 ≤ lookahead) (k : Nat) (hk : k < (missedFetch st).length)
    (hfits : (reschedState st today daily lookahead k).2.1 (today + (lookahead : Int)) +
      (((missedFetch st).get ⟨k, hk⟩).minutes : Int) ≤ daily) :
    usedInit st today lookahead (today + (lookahead : Int)) = 0 ∧
    (today + (lookahead : Int)) ∈ slotDays today lookahead ∧
    ∃ t' ∈ (rescheduleMissed st today daily lookahead).1.tasks,
      t'.id = ((missedFetch st).get ⟨k, hk⟩).id ∧ t'.status = Status.pending ∧
      ∃ d, t'.scheduled = some d ∧ today < d ∧ d ≤ today + (lookahead : Int) := by
  refine ⟨?_, mem_slotDays today lookahead lookahead hl (le_refl lookahead), ?_⟩
  · unfold usedInit
    rw [if_neg]
    omega
  · rcases resched_turn st today daily lookahead hwf k hk with hplaced | hfail
    · rcases hplaced with ⟨o, ho1, ho2, _, _, _, hmem, _, _⟩
      refine ⟨reschedUpdatedRow ((missedFetch st).get ⟨k, hk⟩) (today + o), hmem, rfl, rfl, ?_⟩
      refine ⟨today + (o : Int), rfl, by omega, by omega⟩
    · exact absurd hfits (hfail.1 lookahead hl (le_refl lookahead))

/-- **C10 (witness).** Daily budget 60, lookahead 1: the ledger window is
just [today], yet the scan reaches day today+1, where a task of 1000
minutes is already scheduled; the 30-minute missed task is placed there
anyway because the ledger reads 0 for that day. -/
theorem reschedule_final_day_ledger_gap_witness :
    usedInit storeLedgerGap 0 1 (0 + ((1 : Nat) : Int)) = 0 ∧
    (0 + ((1 : Nat) : Int)) ∈ slotDays 0 1 ∧
    ∃ t' ∈ (rescheduleMissed storeLedgerGap 0 60 1).1.tasks,
      t'.id = ((missedFetch storeLedgerGap).get ⟨0, by decide⟩).id ∧
      t'.status = Status.pending ∧
      ∃ d, t'.scheduled = some d ∧ (0:Int) < d ∧ d ≤ 0 + ((1 : Nat) : Int) :=
  reschedule_final_day_ledger_gap storeLedgerGap 0 60 1 (by decide) (by decide) 0 (by decide)
    (by decide)

/-! ## Scheduler-loop machinery (for C1 and C7) -/

/-- The calibrated minutes a run charges to day `d`: sum over the pending
backlog rows whose store record now carries `scheduled = d`. -/
def placedMinutes (st : Store) (tasksNow : List Task) (d : Int) : Int :=
  (((pendingFilter st).filter fun p =>
      decide (∃ t' ∈ tasksNow, t'.id = p.id ∧ t'.scheduled = some d)).map
    (calibratedMinutes (computeSubjectSpeed st))).sum

lemma mem_pendingFilter (st : Store) {p : Task} (h : p ∈ pendingFilter st) :
    p ∈ st.tasks ∧ p.status = Status.pending ∧ p.scheduled = none := by
  rw [pendingFilter, List.mem_filter] at h
  refine ⟨h.1, ?_⟩
  have := h.2
  simp only [pendingPred, decide_eq_true_eq] at this
  exact this

lemma pendingFilter_ids_nodup (st : Store) (hwf : WF st) :
    ((pendingFilter st).map fun t => t.id).Nodup :=
  ids_nodup_of_pairwise_lt (hwf.1.sublist (List.filter_sublist st.tasks))

lemma pendingBacklog_perm (st : Store) :
    List.Perm (pendingBacklog st) (pendingFilter st) :=
  (List.perm_insertionSort backlogLe _).trans (List.perm_insertionSort fetchLe _)

lemma pendingBacklog_ids_nodup (st : Store) (hwf : WF st) :
    ((pendingBacklog st).map fun t => t.id).Nodup :=
  (((pendingBacklog_perm st).map fun t => t.id).nodup_iff).mpr (pendingFilter_ids_nodup st hwf)

lemma mem_windowDays {today : Int} {lookahead : Nat} {d : Int} :
    d ∈ ((List.range lookahead).map fun (i : Nat) => today + (i : Int)) ↔
      ∃ i : Nat, i < lookahead ∧ d = today + (i : Int) := by
  simp only [List.mem_map, List.mem_range]
  constructor
  · rintro ⟨i, hi, rfl⟩
    exact ⟨i, hi, rfl⟩
  · rintro ⟨i, hi, rfl⟩
    exact ⟨i, hi, rfl⟩

lemma firstFit_some_mem {cap : Int → Int} {needed : Int} :
    ∀ {l : List Int} {d : Int}, firstFit cap needed l = some d → d ∈ l ∧ needed ≤ cap d := by
  intro l
  induction l with
  | nil => intro d h; simp [firstFit] at h
  | cons a l ih =>
    intro d h
    rw [firstFit] at h
    by_cases ha : needed ≤ cap a
    · rw [if_pos ha] at h
      cases h
      exact ⟨List.mem_cons_self a l, ha⟩
    · rw [if_neg ha] at h
      rcases ih h with ⟨hd, hle⟩
      exact ⟨List.mem_cons_of_mem a hd, hle⟩

lemma candidateDays_subset (days : List Int) (deadline : Int) :
    ∀ d ∈ candidateDays days deadline, d ∈ days := by
  intro d hd
  unfold candidateDays at hd
  by_cases he : (days.filter fun d => decide (d ≤ deadline)).isEmpty
  · rw [if_pos he] at hd
    exact hd
  · rw [if_neg he] at hd
    exact List.mem_of_mem_filter hd

/-- Either an iteration leaves the state alone, or it places the row on a
window day with enough remaining capacity. -/
lemma schedStep_cases (days : List Int) (speed : List (String × ℚ)) (s : SchedState)
    (row : Task) :
    schedStep days speed s row = s ∨
    ∃ d, d ∈ days ∧ calibratedMinutes speed row ≤ s.cap d ∧
      schedStep days speed s row = recordPlacement s row (calibratedMinutes speed row)
        (if row.timeWindow = "" then "any" else row.timeWindow) d := by
  cases h1 : firstFit s.cap (calibratedMinutes speed row) (candidateDays days row.deadline) with
  | some d =>
    rcases firstFit_some_mem h1 with ⟨hd, hle⟩
    refine Or.inr ⟨d, candidateDays_subset days row.deadline d hd, hle, ?_⟩
    simp only [schedStep, h1]
  | none =>
    cases h2 : firstFit s.cap (calibratedMinutes speed row) days with
    | some d =>
      rcases firstFit_some_mem h2 with ⟨hd, hle⟩
      refine Or.inr ⟨d, hd, hle, ?_⟩
      simp only [schedStep, h1, h2]
    | none =>
      refine Or.inl ?_
      simp only [schedStep, h1, h2]

/-- The placement predicate of `placedMinutes` is unchanged, at every day,
for rows other than the updated one. -/
lemma placed_pred_update_other {tasks : List Task} {tid : Nat} {d0 : Int} {tw : String}
    {p : Task} (hne : p.id ≠ tid) (d : Int) :
    (∃ t' ∈ updateTaskSchedule tasks tid d0 tw, t'.id = p.id ∧ t'.scheduled = some d) ↔
      (∃ t' ∈ tasks, t'.id = p.id ∧ t'.scheduled = some d) := by
  constructor
  · rintro ⟨t', ht', hid, hsched⟩
    unfold updateTaskSchedule at ht'
    rcases List.mem_map.mp ht' with ⟨y, hy, rfl⟩
    by_cases hyid : y.id = tid
    · simp only [if_pos hyid] at hid
      have : y.id = p.id := hid
      exact absurd (this ▸ hyid : p.id = tid) hne
    · simp only [if_neg hyid] at hid hsched
      exact ⟨y, hy, hid, hsched⟩
  · rintro ⟨t', ht', hid, hsched⟩
    refine ⟨t', mem_updateTaskSchedule_of_ne ht' (hid.symm ▸ hne) d0 tw, hid, hsched⟩

/-- Before its update, the row with the processed task's id is unscheduled
at every day. -/
lemma placed_pred_self_pre {tasks : List Task} {row : Task}
    (huniq : ∀ t ∈ tasks, t.id = row.id → t = row) (hnone : row.scheduled = none) (d : Int) :
    ¬ ∃ t' ∈ tasks, t'.id = row.id ∧ t'.scheduled = some d := by
  rintro ⟨t', ht', hid, hsched⟩
  rw [huniq t' ht' hid, hnone] at hsched
  exact Option.noConfusion hsched

/-- After the update, the row with the processed task's id is scheduled
exactly on the placement day. -/
lemma placed_pred_self_post {tasks : List Task} {row : Task} (hmem : row ∈ tasks)
    {d0 : Int} {tw : String} :
    (∃ t' ∈ updateTaskSchedule tasks row.id d0 tw, t'.id = row.id ∧
      t'.scheduled = some d0) ∧
    ∀ d, d ≠ d0 → ¬ ∃ t' ∈ updateTaskSchedule tasks row.id d0 tw, t'.id = row.id ∧
      t'.scheduled = some d := by
  constructor
  · refine ⟨{ row with
        scheduled := some d0,
        status := Status.pending,
        timeWindow := tw }, ?_, rfl, rfl⟩
    unfold updateTaskSchedule
    have := List.mem_map_of_mem (fun t =>
      if t.id = row.id then
        { t with
          scheduled := some d0,
          status := Status.pending,
          timeWindow := tw }
      else t) hmem
    simpa using this
  · rintro d hd ⟨t', ht', hid, hsched⟩
    unfold updateTaskSchedule at ht'
    rcases List.mem_map.mp ht' with ⟨y, hy, rfl⟩
    by_cases hyid : y.id = row.id
    · simp only [if_pos hyid] at hsched
      have : some d0 = some d := hsched
      exact hd (Option.some.inj this).symm
    · simp only [if_neg hyid] at hid
      exact hyid hid

lemma sum_map_filter_flip (f : Task → Int) (q q' : Task → Bool) (x : Task) :
    ∀ (l : List Task), x ∈ l → (l.Pairwise fun a b => a.id ≠ b.id) →
      (∀ y ∈ l, y.id ≠ x.id → q' y = q y) → q x = false → q' x = true →
      ((l.filter q').map f).sum = ((l.filter q).map f).sum + f x := by
  intro l
  induction l with
  | nil => intro hx; exact absurd hx (List.not_mem_nil x)
  | cons y t ih =>
    intro hx hpw hagree hq hq'
    have hpwt := List.pairwise_cons.mp hpw
    by_cases hxy : x = y
    · subst hxy
      rw [List.filter_cons, List.filter_cons, hq, hq']
      simp only [if_pos, if_neg, Bool.false_eq_true, if_false, if_true]
      have hft : t.filter q' = t.filter q := by
        apply List.filter_congr
        intro z hz
        exact hagree z (List.mem_cons_of_mem x hz) (fun he => hpwt.1 z hz he.symm)
      rw [hft, List.map_cons, List.sum_cons]
      ring
    · have hxt : x ∈ t := by
        rcases List.mem_cons.mp hx with h | h
        · exact absurd h hxy
        · exact h
      have hyne : y.id ≠ x.id := hpwt.1 x hxt
      have hyq : q' y = q y := hagree y (List.mem_cons_self y t) hyne
      have ihh := ih hxt hpwt.2
        (fun z hz hzne => hagree z (List.mem_cons_of_mem y hz) hzne) hq hq'
      rw [List.filter_cons, List.filter_cons, hyq]
      cases hqy : q y with
      | true =>
        simp only [if_pos, if_true]
        rw [List.map_cons, List.sum_cons, List.map_cons, List.sum_cons, ihh]
        ring
      | false =>
        simp only [Bool.false_eq_true, if_false]
        exact ihh

lemma pendingFilter_pairwise_ne (st : Store) (hwf : WF st) :
    (pendingFilter st).Pairwise fun a b => a.id ≠ b.id :=
  (hwf.1.sublist (List.filter_sublist st.tasks)).imp fun h => Nat.ne_of_lt h

lemma placedMinutes_init (st : Store) (hwf : WF st) (d : Int) :
    placedMinutes st st.tasks d = 0 := by
  unfold placedMinutes
  have hfil : (pendingFilter st).filter
      (fun p => decide (∃ t' ∈ st.tasks, t'.id = p.id ∧ t'.scheduled = some d)) = [] := by
    rw [List.filter_eq_nil_iff]
    intro p hp
    simp only [decide_eq_true_eq]
    have hpm := mem_pendingFilter st hp
    exact placed_pred_self_pre
      (fun t ht hid => eq_of_mem_of_id_eq (store_ids_nodup st hwf) ht hpm.1 hid) hpm.2.2 d
  rw [hfil]
  rfl

/-- Invariant of the placement loop: the remaining capacity of every day is
the daily budget minus the calibrated minutes charged to it so far, it
never goes negative, row ids are untouched, and every pending task is
either (so far) placed on a window day or still untouched. -/
lemma schedLoop_invariant (st : Store) (today daily : Int) (lookahead : Nat)
    (hwf : WF st) :
    ∀ (rows : List Task) (s : SchedState),
      (∀ d, s.cap d = daily - placedMinutes st s.tasks d) →
      (∀ d, 0 ≤ s.cap d) →
      (s.tasks.map (fun t => t.id) = st.tasks.map fun t => t.id) →
      (∀ r ∈ rows, r ∈ s.tasks ∧ r ∈ pendingFilter st) →
      (rows.Pairwise fun a b => a.id ≠ b.id) →
      (∀ p ∈ pendingFilter st,
        (∃ t' ∈ s.tasks, t'.id = p.id ∧
          ∃ i : Nat, i < lookahead ∧ t'.scheduled = some (today + (i : Int))) ∨ p ∈ s.tasks) →
      (∀ d, (rows.foldl (schedStep ((List.range lookahead).map fun (i : Nat) => today + (i : Int))
          (computeSubjectSpeed st)) s).cap d =
        daily - placedMinutes st (rows.foldl (schedStep ((List.range lookahead).map
          fun (i : Nat) => today + (i : Int)) (computeSubjectSpeed st)) s).tasks d) ∧
      (∀ d, 0 ≤ (rows.foldl (schedStep ((List.range lookahead).map
          fun (i : Nat) => today + (i : Int)) (computeSubjectSpeed st)) s).cap d) ∧
      ((rows.foldl (schedStep ((List.range lookahead).map fun (i : Nat) => today + (i : Int))
          (computeSubjectSpeed st)) s).tasks.map (fun t => t.id) =
        st.tasks.map fun t => t.id) ∧
      (∀ p ∈ pendingFilter st,
        (∃ t' ∈ (rows.foldl (schedStep ((List.range lookahead).map
            fun (i : Nat) => today + (i : Int)) (computeSubjectSpeed st)) s).tasks,
          t'.id = p.id ∧
          ∃ i : Nat, i < lookahead ∧ t'.scheduled = some (today + (i : Int))) ∨
        p ∈ (rows.foldl (schedStep ((List.range lookahead).map
            fun (i : Nat) => today + (i : Int)) (computeSubjectSpeed st)) s).tasks) := by
  intro rows
  induction rows with
  | nil =>
    intro s hcap hpos hids _ _ hfate
    exact ⟨hcap, hpos, hids, hfate⟩
  | cons row rest ih =>
    intro s hcap hpos hids hrows hpw hfate
    rw [List.foldl_cons]
    have hrc := hrows row (List.mem_cons_self row rest)
    rcases schedStep_cases ((List.range lookahead).map fun (i : Nat) => today + (i : Int))
        (computeSubjectSpeed st) s row with hid | ⟨d0, hd0days, hd0cap, hstep⟩
    · rw [hid]
      exact ih s hcap hpos hids
        (fun r hr => hrows r (List.mem_cons_of_mem row hr))
        (List.pairwise_cons.mp hpw).2 hfate
    · rw [hstep]
      set needed := calibratedMinutes (computeSubjectSpeed st) row with hneed
      set tw := if row.timeWindow = "" then "any" else row.timeWindow with htw
      set tasks1 := updateTaskSchedule s.tasks row.id d0 tw with htasks1
      have hsnodup : (s.tasks.map fun t => t.id).Nodup := by
        rw [hids]
        exact store_ids_nodup st hwf
      have huniq : ∀ t ∈ s.tasks, t.id = row.id → t = row := fun t ht hidd =>
        eq_of_mem_of_id_eq hsnodup ht hrc.1 hidd
      have hrownone : row.scheduled = none := (mem_pendingFilter st hrc.2).2.2
      have hPnodup : ((pendingFilter st).map fun t => t.id).Nodup :=
        pendingFilter_ids_nodup st hwf
      have hPuniq : ∀ p ∈ pendingFilter st, p.id = row.id → p = row := fun p hp hidd =>
        eq_of_mem_of_id_eq hPnodup hp hrc.2 hidd
      have placed1 : ∀ d, placedMinutes st tasks1 d =
          placedMinutes st s.tasks d + (if d = d0 then needed else 0) := by
        intro d
        by_cases hd : d = d0
        · subst hd
          rw [if_pos rfl]
          unfold placedMinutes
          apply sum_map_filter_flip (calibratedMinutes (computeSubjectSpeed st)) _ _ row
            (pendingFilter st) hrc.2 (pendingFilter_pairwise_ne st hwf)
          · intro y _ hyne
            exact decide_eq_decide.mpr (placed_pred_update_other hyne d)
          · exact decide_eq_false (placed_pred_self_pre huniq hrownone d)
          · exact decide_eq_true (placed_pred_self_post hrc.1).1
        · rw [if_neg hd]
          unfold placedMinutes
          rw [List.filter_congr]
          · ring
          · intro p hp
            by_cases hpid : p.id = row.id
            · have hpr : p = row := hPuniq p hp hpid
              subst hpr
              rw [decide_eq_false ((placed_pred_self_post hrc.1).2 d hd),
                decide_eq_false (placed_pred_self_pre huniq hrownone d)]
            · exact decide_eq_decide.mpr (placed_pred_update_other hpid d)
      have hcap1 : ∀ d, (recordPlacement s row needed tw d0).cap d =
          daily - placedMinutes st tasks1 d := by
        intro d
        show (if d = d0 then s.cap d - needed else s.cap d) = _
        rw [placed1 d]
        by_cases hd : d = d0
        · subst hd
          rw [if_pos rfl, if_pos rfl, hcap d]
          ring
        · rw [if_neg hd, if_neg hd, hcap d]
          ring
      have hpos1 : ∀ d, 0 ≤ (recordPlacement s row needed tw d0).cap d := by
        intro d
        show 0 ≤ if d = d0 then s.cap d - needed else s.cap d
        by_cases hd : d = d0
        · subst hd
          rw [if_pos rfl]
          omega
        · rw [if_neg hd]
          exact hpos d
      have hids1 : ((recordPlacement s row needed tw d0).tasks.map fun t => t.id) =
          st.tasks.map fun t => t.id := by
        show (tasks1.map fun t => t.id) = _
        rw [htasks1, updateTaskSchedule_map_id, hids]
      have hrows1 : ∀ r ∈ rest, r ∈ (recordPlacement s row needed tw d0).tasks ∧
          r ∈ pendingFilter st := by
        intro r hr
        have hrne : r.id ≠ row.id := fun he =>
          ((List.pairwise_cons.mp hpw).1 r hr) he.symm
        exact ⟨mem_updateTaskSchedule_of_ne (hrows r (List.mem_cons_of_mem row hr)).1
          hrne d0 tw, (hrows r (List.mem_cons_of_mem row hr)).2⟩
      have hfate1 : ∀ p ∈ pendingFilter st,
          (∃ t' ∈ (recordPlacement s row needed tw d0).tasks, t'.id = p.id ∧
            ∃ i : Nat, i < lookahead ∧ t'.scheduled = some (today + (i : Int))) ∨
          p ∈ (recordPlacement s row needed tw d0).tasks := by
        intro p hp
        by_cases hpid : p.id = row.id
        · have hpr : p = row := hPuniq p hp hpid
          subst hpr
          left
          rcases (@placed_pred_self_post s.tasks p hrc.1 d0 tw).1 with
            ⟨t', ht', hidt, hsched⟩
          rcases mem_windowDays.mp hd0days with ⟨i, hi, hdi⟩
          exact ⟨t', ht', hidt, i, hi, by rw [hsched, hdi]⟩
        · rcases hfate p hp with ⟨t', ht', hidp, hrest⟩ | hmem
          · left
            have htne : t'.id ≠ row.id := by rw [hidp]; exact hpid
            exact ⟨t', mem_updateTaskSchedule_of_ne ht' htne d0 tw, hidp, hrest⟩
          · right
            exact mem_updateTaskSchedule_of_ne hmem hpid d0 tw
      exact ih (recordPlacement s row needed tw d0) hcap1 hpos1 hids1 hrows1
        (List.pairwise_cons.mp hpw).2 hfate1

lemma updateTaskSchedule_zero (l : List Task) (h : ∀ t ∈ l, 1 ≤ t.id) (d : Int)
    (tw : String) : updateTaskSchedule l 0 d tw = l := by
  unfold updateTaskSchedule
  have hcong : ∀ t ∈ l, (if t.id = 0 then
      { t with scheduled := some d, status := Status.pending, timeWindow := tw }
    else t) = t := by
    intro t ht
    have := h t ht
    rw [if_neg (by omega)]
  trans l.map id
  · exact List.map_congr_left hcong
  · exact List.map_id l

lemma reviewInsert_shape (today : Int) (lookahead : Nat) (origId : Nat)
    (subject topic : String) (origMinutes : Nat) (firstDate : Int) (stAcc : Store)
    (offset : Int) (h1 : ∀ t ∈ stAcc.tasks, 1 ≤ t.id) (h2 : 1 ≤ stAcc.nextId) :
    ∃ new, (reviewInsert today lookahead origId subject topic origMinutes firstDate stAcc
        offset).tasks = stAcc.tasks ++ new ∧
      (∀ t ∈ new, t.scheduled = none ∧ stAcc.nextId ≤ t.id) ∧
      stAcc.nextId ≤ (reviewInsert today lookahead origId subject topic origMinutes firstDate
        stAcc offset).nextId := by
  unfold reviewInsert
  by_cases hcond : firstDate + offset ≤ today + (lookahead : Int)
  · rw [if_pos hcond]
    refine ⟨[Task.mk stAcc.nextId (subject ++ " (review)") (topic ++ " - review")
      (max 10 ((origMinutes + 3) / 4)) 1 3 (firstDate + offset) none "any" Status.review],
      ?_, ?_, ?_⟩
    · show updateTaskSchedule (stAcc.tasks ++ [_]) 0 _ "any" = _
      apply updateTaskSchedule_zero
      intro t ht
      rcases List.mem_append.mp ht with hta | htb
      · exact h1 t hta
      · rcases List.mem_singleton.mp htb with rfl
        exact h2
    · intro t ht
      rcases List.mem_singleton.mp ht with rfl
      exact ⟨rfl, le_refl _⟩
    · exact Nat.le_succ _
  · rw [if_neg hcond]
    exact ⟨[], by simp, by simp, le_refl _⟩

lemma reviewInsert_foldl_shape (today : Int) (lookahead : Nat) (origId : Nat)
    (subject topic : String) (origMinutes : Nat) (firstDate : Int) :
    ∀ (offsets : List Int) (stAcc : Store), (∀ t ∈ stAcc.tasks, 1 ≤ t.id) →
      1 ≤ stAcc.nextId →
      ∃ new, (offsets.foldl (reviewInsert today lookahead origId subject topic origMinutes
          firstDate) stAcc).tasks = stAcc.tasks ++ new ∧
        (∀ t ∈ new, t.scheduled = none ∧ stAcc.nextId ≤ t.id) ∧
        stAcc.nextId ≤ (offsets.foldl (reviewInsert today lookahead origId subject topic
          origMinutes firstDate) stAcc).nextId := by
  intro offsets
  induction offsets with
  | nil =>
    intro stAcc _ _
    exact ⟨[], by simp, by simp, le_refl _⟩
  | cons o os ih =>
    intro stAcc h1 h2
    rw [List.foldl_cons]
    rcases reviewInsert_shape today lookahead origId subject topic origMinutes firstDate
      stAcc o h1 h2 with ⟨new1, hstep, hnew1, hnext1⟩
    have h1' : ∀ t ∈ (reviewInsert today lookahead origId subject topic origMinutes firstDate
        stAcc o).tasks, 1 ≤ t.id := by
      rw [hstep]
      intro t ht
      rcases List.mem_append.mp ht with hta | htb
      · exact h1 t hta
      · have := (hnew1 t htb).2
        omega
    have h2' : 1 ≤ (reviewInsert today lookahead origId subject topic origMinutes firstDate
        stAcc o).nextId := le_trans h2 hnext1
    rcases ih _ h1' h2' with ⟨new2, hfold, hnew2, hnext2⟩
    refine ⟨new1 ++ new2, ?_, ?_, le_trans hnext1 hnext2⟩
    · rw [hfold, hstep, List.append_assoc]
    · intro t ht
      rcases List.mem_append.mp ht with hta | htb
      · exact hnew1 t hta
      · have := hnew2 t htb
        exact ⟨this.1, le_trans hnext1 this.2⟩

lemma reviewStep_shape (today : Int) (lookahead : Nat) (intervals : List Int)
    (stAcc : Store) (e : String × Int) (h1 : ∀ t ∈ stAcc.tasks, 1 ≤ t.id)
    (h2 : 1 ≤ stAcc.nextId) :
    ∃ new, (reviewStep today lookahead intervals stAcc e).tasks = stAcc.tasks ++ new ∧
      (∀ t ∈ new, t.scheduled = none ∧ stAcc.nextId ≤ t.id) ∧
      stAcc.nextId ≤ (reviewStep today lookahead intervals stAcc e).nextId := by
  unfold reviewStep
  cases horig : (stAcc.tasks.filter fun t => decide (t.subject = e.1)).head? with
  | none => exact ⟨[], by simp, by simp, le_refl _⟩
  | some orig =>
    exact reviewInsert_foldl_shape today lookahead orig.id e.1 orig.topic orig.minutes e.2
      intervals stAcc h1 h2

lemma reviewFold_shape (today : Int) (lookahead : Nat) (intervals : List Int) :
    ∀ (entries : List (String × Int)) (stAcc : Store), (∀ t ∈ stAcc.tasks, 1 ≤ t.id) →
      1 ≤ stAcc.nextId →
      ∃ new, (entries.foldl (reviewStep today lookahead intervals) stAcc).tasks =
          stAcc.tasks ++ new ∧
        (∀ t ∈ new, t.scheduled = none ∧ stAcc.nextId ≤ t.id) := by
  intro entries
  induction entries with
  | nil =>
    intro stAcc _ _
    exact ⟨[], by simp, by simp⟩
  | cons e es ih =>
    intro stAcc h1 h2
    rw [List.foldl_cons]
    rcases reviewStep_shape today lookahead intervals stAcc e h1 h2 with
      ⟨new1, hstep, hnew1, hnext1⟩
    have h1' : ∀ t ∈ (reviewStep today lookahead intervals stAcc e).tasks, 1 ≤ t.id := by
      rw [hstep]
      intro t ht
      rcases List.mem_append.mp ht with hta | htb
      · exact h1 t hta
      · have := (hnew1 t htb).2
        omega
    rcases ih _ h1' (le_trans h2 hnext1) with ⟨new2, hfold, hnew2⟩
    refine ⟨new1 ++ new2, ?_, ?_⟩
    · rw [hfold, hstep, List.append_assoc]
    · intro t ht
      rcases List.mem_append.mp ht with hta | htb
      · exact hnew1 t hta
      · have := hnew2 t htb
        exact ⟨this.1, le_trans hnext1 this.2⟩

lemma ids_ge_one_of_map_eq (st : Store) (hwf : WF st) {l : List Task}
    (h : (l.map fun t => t.id) = st.tasks.map fun t => t.id) : ∀ t ∈ l, 1 ≤ t.id := by
  intro t ht
  have : t.id ∈ l.map fun t => t.id := List.mem_map_of_mem _ ht
  rw [h] at this
  rcases List.mem_map.mp this with ⟨u, hu, hid⟩
  have := (hwf.2.1 u hu).1
  omega

lemma placed_pred_append_none {l new : List Task} (hnew : ∀ t ∈ new, t.scheduled = none)
    (p : Task) (d : Int) :
    (∃ t' ∈ l ++ new, t'.id = p.id ∧ t'.scheduled = some d) ↔
      (∃ t' ∈ l, t'.id = p.id ∧ t'.scheduled = some d) := by
  constructor
  · rintro ⟨t', ht', hid, hsched⟩
    rcases List.mem_append.mp ht' with hta | htb
    · exact ⟨t', hta, hid, hsched⟩
    · rw [hnew t' htb] at hsched
      exact Option.noConfusion hsched
  · rintro ⟨t', ht', hid, hsched⟩
    exact ⟨t', List.mem_append_left new ht', hid, hsched⟩

lemma placedMinutes_append_none (st : Store) {l new : List Task}
    (hnew : ∀ t ∈ new, t.scheduled = none) (d : Int) :
    placedMinutes st (l ++ new) d = placedMinutes st l d := by
  unfold placedMinutes
  rw [List.filter_congr]
  intro p _
  exact decide_eq_decide.mpr (placed_pred_append_none hnew p d)

/-- **C1.** Under the precondition `daily_minutes ≥ 0`, a single
`smart_schedule` run never charges any day more calibrated minutes than
`daily_minutes`, and every pending task is either placed on a day inside
the lookahead window or left entirely untouched (unscheduled) — no day is
ever over-filled to accommodate a task. -/
theorem schedule_day_capacity_invariant (st : Store) (today daily : Int)
    (intervals : List Int) (lookahead : Nat) (hwf : WF st) (hd : 0 ≤ daily) :
    (∀ d : Int,
      placedMinutes st ((smartSchedule st today daily intervals lookahead).1).tasks d ≤ daily) ∧
    (∀ p ∈ pendingFilter st,
      (∃ t' ∈ ((smartSchedule st today daily intervals lookahead).1).tasks, t'.id = p.id ∧
        ∃ i : Nat, i < lookahead ∧ t'.scheduled = some (today + (i : Int))) ∨
      p ∈ ((smartSchedule st today daily intervals lookahead).1).tasks) := by
  by_cases hp : (fetchTasks st pendingPred).isEmpty
  · have hsmart : smartSchedule st today daily intervals lookahead = (st, 0) := by
      unfold smartSchedule
      rw [if_pos hp]
    rw [hsmart]
    constructor
    · intro d
      rw [placedMinutes_init st hwf d]
      exact hd
    · intro p hp2
      exact Or.inr (mem_pendingFilter st hp2).1
  · have hsmart : smartSchedule st today daily intervals lookahead =
        (((sortBacklog (fetchTasks st pendingPred)).foldl
            (schedStep ((List.range lookahead).map fun (i : Nat) => today + (i : Int))
              (computeSubjectSpeed st))
            ⟨st.tasks, fun _ => daily, 0, []⟩).firstSched.foldl
          (reviewStep today lookahead intervals)
          { st with tasks := ((sortBacklog (fetchTasks st pendingPred)).foldl
            (schedStep ((List.range lookahead).map fun (i : Nat) => today + (i : Int))
              (computeSubjectSpeed st))
            ⟨st.tasks, fun _ => daily, 0, []⟩).tasks },
        ((sortBacklog (fetchTasks st pendingPred)).foldl
            (schedStep ((List.range lookahead).map fun (i : Nat) => today + (i : Int))
              (computeSubjectSpeed st))
            ⟨st.tasks, fun _ => daily, 0, []⟩).count) := by
      unfold smartSchedule
      rw [if_neg hp]
    have hrows_mem : ∀ r ∈ sortBacklog (fetchTasks st pendingPred),
        r ∈ st.tasks ∧ r ∈ pendingFilter st := by
      intro r hr
      have : r ∈ pendingFilter st := (pendingBacklog_perm st).mem_iff.mp hr
      exact ⟨(mem_pendingFilter st this).1, this⟩
    have hrows_pw : (sortBacklog (fetchTasks st pendingPred)).Pairwise
        fun a b => a.id ≠ b.id :=
      List.pairwise_map.mp (pendingBacklog_ids_nodup st hwf)
    have inv := schedLoop_invariant st today daily lookahead hwf
      (sortBacklog (fetchTasks st pendingPred)) ⟨st.tasks, fun _ => daily, 0, []⟩
      (fun d => by
        show daily = daily - placedMinutes st st.tasks d
        rw [placedMinutes_init st hwf d]
        ring)
      (fun d => hd) rfl hrows_mem hrows_pw
      (fun p hp2 => Or.inr (mem_pendingFilter st hp2).1)
    rcases inv with ⟨hcapF, hposF, hidsF, hfateF⟩
    have hidsge : ∀ t ∈ ((sortBacklog (fetchTasks st pendingPred)).foldl
        (schedStep ((List.range lookahead).map fun (i : Nat) => today + (i : Int))
          (computeSubjectSpeed st)) ⟨st.tasks, fun _ => daily, 0, []⟩).tasks, 1 ≤ t.id :=
      ids_ge_one_of_map_eq st hwf hidsF
    rcases reviewFold_shape today lookahead intervals
      (((sortBacklog (fetchTasks st pendingPred)).foldl
        (schedStep ((List.range lookahead).map fun (i : Nat) => today + (i : Int))
          (computeSubjectSpeed st)) ⟨st.tasks, fun _ => daily, 0, []⟩).firstSched)
      { st with tasks := ((sortBacklog (fetchTasks st pendingPred)).foldl
        (schedStep ((List.range lookahead).map fun (i : Nat) => today + (i : Int))
          (computeSubjectSpeed st)) ⟨st.tasks, fun _ => daily, 0, []⟩).tasks }
      hidsge hwf.2.2 with ⟨new, hshape, hnew⟩
    constructor
    · intro d
      rw [hsmart]
      show placedMinutes st _ d ≤ daily
      rw [hshape]
      rw [placedMinutes_append_none st (fun t ht => (hnew t ht).1) d]
      have h3 : placedMinutes st ({ st with
          tasks := ((sortBacklog (fetchTasks st pendingPred)).foldl
            (schedStep ((List.range lookahead).map fun (i : Nat) => today + (i : Int))
              (computeSubjectSpeed st)) ⟨st.tasks, fun _ => daily, 0, []⟩).tasks } :
          Store).tasks d =
        placedMinutes st ((sortBacklog (fetchTasks st pendingPred)).foldl
          (schedStep ((List.range lookahead).map fun (i : Nat) => today + (i : Int))
            (computeSubjectSpeed st)) ⟨st.tasks, fun _ => daily, 0, []⟩).tasks d := rfl
      rw [h3]
      have h1 := hcapF d
      have h2 := hposF d
      omega
    · intro p hp2
      rw [hsmart]
      rcases hfateF p hp2 with ⟨t', ht', hid, hi⟩ | hmem
      · left
        refine ⟨t', ?_, hid, hi⟩
        show t' ∈ _
        rw [hshape]
        exact List.mem_append_left new ht'
      · right
        show p ∈ _
        rw [hshape]
        exact List.mem_append_left new hmem

/-- **C1 (witness).** On the concrete speed-calibrated store with
daily budget 67. -/
theorem schedule_day_capacity_invariant_witness :
    (∀ d : Int,
      placedMinutes storeSpeedX ((smartSchedule storeSpeedX 0 67 [] 60).1).tasks d ≤ 67) ∧
    (∀ p ∈ pendingFilter storeSpeedX,
      (∃ t' ∈ ((smartSchedule storeSpeedX 0 67 [] 60).1).tasks, t'.id = p.id ∧
        ∃ i : Nat, i < 60 ∧ t'.scheduled = some ((0 : Int) + (i : Int))) ∨
      p ∈ ((smartSchedule storeSpeedX 0 67 [] 60).1).tasks) :=
  schedule_day_capacity_invariant storeSpeedX 0 67 [] 60 (by decide) (by decide)

/-! ## Ample-capacity behaviour of the placement loop (for C7) -/

lemma update_self_forall {l : List Task} {tid : Nat} {d : Int} {tw : String} :
    ∀ t' ∈ updateTaskSchedule l tid d tw, t'.id = tid → t'.scheduled = some d := by
  intro t' ht' hid
  unfold updateTaskSchedule at ht'
  rcases List.mem_map.mp ht' with ⟨y, hy, rfl⟩
  by_cases hyid : y.id = tid
  · simp only [if_pos hyid]
  · simp only [if_neg hyid] at hid
    exact absurd hid hyid

lemma mem_schedStep_of_ne {days : List Int} {speed : List (String × ℚ)} {s : SchedState}
    {row t : Task} (ht : t ∈ s.tasks) (hne : t.id ≠ row.id) :
    t ∈ (schedStep days speed s row).tasks := by
  rcases schedStep_cases days speed s row with hid | ⟨d0, _, _, hstep⟩
  · rw [hid]
    exact ht
  · rw [hstep]
    exact mem_updateTaskSchedule_of_ne ht hne d0 _

lemma forall_id_schedStep {days : List Int} {speed : List (String × ℚ)} {s : SchedState}
    {row : Task} {x : Nat} {P : Task → Prop} (hx : x ≠ row.id)
    (h : ∀ t ∈ s.tasks, t.id = x → P t) :
    ∀ t' ∈ (schedStep days speed s row).tasks, t'.id = x → P t' := by
  rcases schedStep_cases days speed s row with hid | ⟨d0, _, _, hstep⟩
  · rw [hid]
    exact h
  · rw [hstep]
    exact forall_id_updateTaskSchedule hx h d0 _

lemma forall_id_foldl_schedStep (days : List Int) (speed : List (String × ℚ)) {x : Nat}
    {P : Task → Prop} :
    ∀ (rows : List Task) (s : SchedState), (∀ t ∈ s.tasks, t.id = x → P t) →
      (∀ row ∈ rows, x ≠ row.id) →
      ∀ t' ∈ (rows.foldl (schedStep days speed) s).tasks, t'.id = x → P t'
  | [], _, h, _ => h
  | r :: rs, s, h, hne => by
    rw [List.foldl_cons]
    exact forall_id_foldl_schedStep days speed rs _
      (forall_id_schedStep (hne r (List.mem_cons_self r rs)) h)
      fun row hrow => hne row (List.mem_cons_of_mem r hrow)

lemma windowDays_shape (today : Int) (lookahead : Nat) (hl : 1 ≤ lookahead) :
    ∃ tail, ((List.range lookahead).map fun (i : Nat) => today + (i : Int)) =
      today :: tail := by
  cases lookahead with
  | zero => omega
  | succ m =>
    refine ⟨((List.range m).map Nat.succ).map fun (i : Nat) => today + (i : Int), ?_⟩
    rw [List.range_succ_eq_map, List.map_cons]
    simp

lemma windowDays_ge (today : Int) (lookahead : Nat) :
    ∀ d ∈ ((List.range lookahead).map fun (i : Nat) => today + (i : Int)), today ≤ d := by
  intro d hd
  rcases mem_windowDays.mp hd with ⟨i, _, rfl⟩
  omega

lemma candidateDays_head_today {today : Int} {lookahead : Nat} {deadline : Int}
    (hl : 1 ≤ lookahead) :
    ∃ tail, candidateDays ((List.range lookahead).map fun (i : Nat) => today + (i : Int))
      deadline = today :: tail := by
  rcases windowDays_shape today lookahead hl with ⟨tail, htail⟩
  unfold candidateDays
  by_cases hdl : today ≤ deadline
  · have hfil : (((List.range lookahead).map fun (i : Nat) => today + (i : Int)).filter
        fun d => decide (d ≤ deadline)) =
        today :: (tail.filter fun d => decide (d ≤ deadline)) := by
      rw [htail, List.filter_cons]
      simp [hdl]
    rw [hfil]
    simp only [List.isEmpty_cons, Bool.false_eq_true, if_false]
    exact ⟨_, rfl⟩
  · have hfil : (((List.range lookahead).map fun (i : Nat) => today + (i : Int)).filter
        fun d => decide (d ≤ deadline)) = [] := by
      rw [List.filter_eq_nil_iff]
      intro d hd
      have := windowDays_ge today lookahead d hd
      simp only [decide_eq_true_eq]
      omega
    rw [hfil]
    simp only [List.isEmpty_nil, if_true]
    exact ⟨tail, htail⟩

lemma schedStep_places_today {st : Store} {today : Int} {lookahead : Nat}
    {s : SchedState} {row : Task} (hl : 1 ≤ lookahead)
    (hcap : calibratedMinutes (computeSubjectSpeed st) row ≤ s.cap today) :
    schedStep ((List.range lookahead).map fun (i : Nat) => today + (i : Int))
        (computeSubjectSpeed st) s row =
      recordPlacement s row (calibratedMinutes (computeSubjectSpeed st) row)
        (if row.timeWindow = "" then "any" else row.timeWindow) today := by
  rcases @candidateDays_head_today today lookahead row.deadline hl with
    ⟨tail, hcd⟩
  have hff : firstFit s.cap (calibratedMinutes (computeSubjectSpeed st) row)
      (today :: tail) = some today := by
    rw [firstFit, if_pos hcap]
  simp only [schedStep, hcd, hff]

lemma calibrated_sum_nonneg (speed : List (String × ℚ)) (l : List Task) :
    0 ≤ (l.map (calibratedMinutes speed)).sum := by
  apply List.sum_nonneg
  intro x hx
  rcases List.mem_map.mp hx with ⟨t, _, rfl⟩
  have := calibratedMinutes_pos_lb speed t
  omega

/-- With enough capacity on `today` for the whole backlog, every row is
placed on `today`. -/
lemma schedLoop_all_today (st : Store) (today : Int) (lookahead : Nat)
    (hl : 1 ≤ lookahead) :
    ∀ (rows : List Task) (s : SchedState),
      (rows.map (calibratedMinutes (computeSubjectSpeed st))).sum ≤ s.cap today →
      (∀ r ∈ rows, r ∈ s.tasks) →
      (rows.Pairwise fun a b => a.id ≠ b.id) →
      ∀ r ∈ rows, ∀ t' ∈ (rows.foldl (schedStep ((List.range lookahead).map
          fun (i : Nat) => today + (i : Int)) (computeSubjectSpeed st)) s).tasks,
        t'.id = r.id → t'.scheduled = some today := by
  intro rows
  induction rows with
  | nil =>
    intro s _ _ _ r hr
    exact absurd hr (List.not_mem_nil r)
  | cons row rest ih =>
    intro s hsum hmem hpw r hr
    have hrest_sum : 0 ≤ (rest.map (calibratedMinutes (computeSubjectSpeed st))).sum :=
      calibrated_sum_nonneg _ rest
    have hsum' : (calibratedMinutes (computeSubjectSpeed st) row) +
        (rest.map (calibratedMinutes (computeSubjectSpeed st))).sum ≤ s.cap today := by
      rw [List.map_cons, List.sum_cons] at hsum
      exact hsum
    have hcap : calibratedMinutes (computeSubjectSpeed st) row ≤ s.cap today := by omega
    have hstep := @schedStep_places_today st today lookahead s row hl hcap
    rw [List.foldl_cons, hstep]
    have hcap1 : (recordPlacement s row (calibratedMinutes (computeSubjectSpeed st) row)
        (if row.timeWindow = "" then "any" else row.timeWindow) today).cap today =
        s.cap today - calibratedMinutes (computeSubjectSpeed st) row := by
      show (if today = today then _ else _) = _
      rw [if_pos rfl]
    rcases List.mem_cons.mp hr with rfl | hr'
    · -- the processed row itself: set now, preserved afterwards
      apply forall_id_foldl_schedStep
      · intro t ht hid
        exact update_self_forall t ht hid
      · intro rr hrr
        exact fun he => ((List.pairwise_cons.mp hpw).1 rr hrr) he
    · -- a later row: inductive hypothesis on the updated state
      apply ih
      · rw [hcap1]
        omega
      · intro rr hrr
        have hne : rr.id ≠ row.id := fun he =>
          ((List.pairwise_cons.mp hpw).1 rr hrr) he.symm
        exact mem_updateTaskSchedule_of_ne (hmem rr (List.mem_cons_of_mem row hrr)) hne
          today _
      · exact (List.pairwise_cons.mp hpw).2
      · exact hr'

/-- **C7.** The backlog a run processes is a permutation of the pending
rows sorted by deadline ascending, then priority descending, then
difficulty descending, ties beyond those keys resolved in original store
(creation/id) order; and with ample capacity (the whole calibrated backlog
fits one day), every pending task lands on `today`, so a task with an
earlier deadline is placed on a day on or before that of a task with a
later deadline regardless of priorities. -/
theorem backlog_order_and_deadline_dominance (st : Store) (today daily : Int)
    (intervals : List Int) (lookahead : Nat) (hwf : WF st) (hl : 1 ≤ lookahead)
    (hample : ((pendingFilter st).map (calibratedMinutes (computeSubjectSpeed st))).sum ≤
      daily) :
    List.Perm (pendingBacklog st) (pendingFilter st) ∧
    (pendingBacklog st).Pairwise (fun a b =>
      a.deadline < b.deadline ∨ (a.deadline = b.deadline ∧
        (b.priority < a.priority ∨ (a.priority = b.priority ∧
          (b.difficulty < a.difficulty ∨
            (a.difficulty = b.difficulty ∧ a.id < b.id)))))) ∧
    (∀ p ∈ pendingFilter st,
      ∀ t' ∈ ((smartSchedule st today daily intervals lookahead).1).tasks,
        t'.id = p.id → t'.scheduled = some today) ∧
    (∀ a ∈ pendingFilter st, ∀ b ∈ pendingFilter st,
      ∀ ta ∈ ((smartSchedule st today daily intervals lookahead).1).tasks,
      ∀ tb ∈ ((smartSchedule st today daily intervals lookahead).1).tasks,
        ta.id = a.id → tb.id = b.id → ∀ da db, ta.scheduled = some da →
        tb.scheduled = some db → a.deadline ≤ b.deadline → da ≤ db) := by
  have hsorted : (pendingBacklog st).Pairwise backlogLe :=
    List.sorted_insertionSort backlogLe (fetchTasks st pendingPred)
  have hne : (pendingBacklog st).Pairwise fun a b => a.id ≠ b.id :=
    List.pairwise_map.mp (pendingBacklog_ids_nodup st hwf)
  have hpair : (pendingBacklog st).Pairwise (fun a b =>
      a.deadline < b.deadline ∨ (a.deadline = b.deadline ∧
        (b.priority < a.priority ∨ (a.priority = b.priority ∧
          (b.difficulty < a.difficulty ∨
            (a.difficulty = b.difficulty ∧ a.id < b.id)))))) := by
    refine (hsorted.and hne).imp ?_
    intro a b hab
    rcases hab with ⟨hle, hidne⟩
    unfold backlogLe at hle
    omega
  have hplaced : ∀ p ∈ pendingFilter st,
      ∀ t' ∈ ((smartSchedule st today daily intervals lookahead).1).tasks,
        t'.id = p.id → t'.scheduled = some today := by
    by_cases hp : (fetchTasks st pendingPred).isEmpty
    · have hnil : pendingFilter st = [] := by
        have h0 : fetchTasks st pendingPred = [] := List.isEmpty_iff.mp hp
        have h1 : List.Perm (fetchTasks st pendingPred) (pendingFilter st) :=
          List.perm_insertionSort fetchLe _
        rw [h0] at h1
        exact (h1.symm).eq_nil
      intro p hp2
      rw [hnil] at hp2
      exact absurd hp2 (List.not_mem_nil p)
    · have hsmart : smartSchedule st today daily intervals lookahead =
          (((sortBacklog (fetchTasks st pendingPred)).foldl
              (schedStep ((List.range lookahead).map fun (i : Nat) => today + (i : Int))
                (computeSubjectSpeed st))
              ⟨st.tasks, fun _ => daily, 0, []⟩).firstSched.foldl
            (reviewStep today lookahead intervals)
            { st with tasks := ((sortBacklog (fetchTasks st pendingPred)).foldl
              (schedStep ((List.range lookahead).map fun (i : Nat) => today + (i : Int))
                (computeSubjectSpeed st))
              ⟨st.tasks, fun _ => daily, 0, []⟩).tasks },
          ((sortBacklog (fetchTasks st pendingPred)).foldl
              (schedStep ((List.range lookahead).map fun (i : Nat) => today + (i : Int))
                (computeSubjectSpeed st))
              ⟨st.tasks, fun _ => daily, 0, []⟩).count) := by
        unfold smartSchedule
        rw [if_neg hp]
      have hsum : ((sortBacklog (fetchTasks st pendingPred)).map
          (calibratedMinutes (computeSubjectSpeed st))).sum ≤ daily := by
        have hperm : List.Perm ((pendingBacklog st).map
            (calibratedMinutes (computeSubjectSpeed st)))
            ((pendingFilter st).map (calibratedMinutes (computeSubjectSpeed st))) :=
          (pendingBacklog_perm st).map _
        calc ((sortBacklog (fetchTasks st pendingPred)).map
            (calibratedMinutes (computeSubjectSpeed st))).sum
            = ((pendingFilter st).map (calibratedMinutes (computeSubjectSpeed st))).sum :=
              hperm.sum_eq
          _ ≤ daily := hample
      have hall := schedLoop_all_today st today lookahead hl
        (sortBacklog (fetchTasks st pendingPred)) ⟨st.tasks, fun _ => daily, 0, []⟩
        hsum
        (fun r hr => ((pendingBacklog_perm st).mem_iff.mp hr) |>
          fun h2 => (mem_pendingFilter st h2).1)
        (List.pairwise_map.mp (pendingBacklog_ids_nodup st hwf))
      intro p hp2
      have hpid_lt : p.id < st.nextId := (hwf.2.1 p (mem_pendingFilter st hp2).1).2
      have hprows : p ∈ sortBacklog (fetchTasks st pendingPred) :=
        (pendingBacklog_perm st).mem_iff.mpr hp2
      have hfin := hall p hprows
      have hidsF : (((sortBacklog (fetchTasks st pendingPred)).foldl
          (schedStep ((List.range lookahead).map fun (i : Nat) => today + (i : Int))
            (computeSubjectSpeed st)) ⟨st.tasks, fun _ => daily, 0, []⟩).tasks.map
          fun t => t.id) = st.tasks.map fun t => t.id := by
        rcases schedLoop_invariant st today daily lookahead hwf
          (sortBacklog (fetchTasks st pendingPred)) ⟨st.tasks, fun _ => daily, 0, []⟩
          (fun d => by
            show daily = daily - placedMinutes st st.tasks d
            rw [placedMinutes_init st hwf d]
            ring)
          (fun d => le_trans (calibrated_sum_nonneg _ _) hsum)
          rfl
          (fun r hr => ⟨((pendingBacklog_perm st).mem_iff.mp hr) |>
            fun h2 => (mem_pendingFilter st h2).1, (pendingBacklog_perm st).mem_iff.mp hr⟩)
          (List.pairwise_map.mp (pendingBacklog_ids_nodup st hwf))
          (fun q hq => Or.inr (mem_pendingFilter st hq).1) with ⟨_, _, hids, _⟩
        exact hids
      rcases reviewFold_shape today lookahead intervals
        (((sortBacklog (fetchTasks st pendingPred)).foldl
          (schedStep ((List.range lookahead).map fun (i : Nat) => today + (i : Int))
            (computeSubjectSpeed st)) ⟨st.tasks, fun _ => daily, 0, []⟩).firstSched)
        { st with tasks := ((sortBacklog (fetchTasks st pendingPred)).foldl
          (schedStep ((List.range lookahead).map fun (i : Nat) => today + (i : Int))
            (computeSubjectSpeed st)) ⟨st.tasks, fun _ => daily, 0, []⟩).tasks }
        (ids_ge_one_of_map_eq st hwf hidsF) hwf.2.2 with ⟨new, hshape, hnew⟩
      intro t' ht' hid
      rw [hsmart] at ht'
      have ht2 : t' ∈ ((sortBacklog (fetchTasks st pendingPred)).foldl
          (schedStep ((List.range lookahead).map fun (i : Nat) => today + (i : Int))
            (computeSubjectSpeed st)) ⟨st.tasks, fun _ => daily, 0, []⟩).tasks ++ new := by
        rw [← hshape]
        exact ht'
      rcases List.mem_append.mp ht2 with hta | htb
      · exact hfin t' hta hid
      · have := (hnew t' htb).2
        show t'.scheduled = some today
        exfalso
        have : st.nextId ≤ t'.id := this
        omega
  refine ⟨pendingBacklog_perm st, hpair, hplaced, ?_⟩
  intro a ha b hb ta hta tb htb hida hidb da db hsa hsb _
  have h1 := hplaced a ha ta hta hida
  have h2 := hplaced b hb tb htb hidb
  rw [h1] at hsa
  rw [h2] at hsb
  rw [← Option.some.inj hsa, ← Option.some.inj hsb]

/-- **C7 (witness).** The spec's ordering example: tasks A (deadline 5,
priority 5) and B (deadline 3, priority 1) with ample capacity are both
placed on today, so B's day is on or before A's. -/
theorem backlog_order_and_deadline_dominance_witness :
    List.Perm (pendingBacklog storeOrderAB) (pendingFilter storeOrderAB) ∧
    (pendingBacklog storeOrderAB).Pairwise (fun a b =>
      a.deadline < b.deadline ∨ (a.deadline = b.deadline ∧
        (b.priority < a.priority ∨ (a.priority = b.priority ∧
          (b.difficulty < a.difficulty ∨
            (a.difficulty = b.difficulty ∧ a.id < b.id)))))) ∧
    (∀ p ∈ pendingFilter storeOrderAB,
      ∀ t' ∈ ((smartSchedule storeOrderAB 0 60 [] 7).1).tasks,
        t'.id = p.id → t'.scheduled = some 0) ∧
    (∀ a ∈ pendingFilter storeOrderAB, ∀ b ∈ pendingFilter storeOrderAB,
      ∀ ta ∈ ((smartSchedule storeOrderAB 0 60 [] 7).1).tasks,
      ∀ tb ∈ ((smartSchedule storeOrderAB 0 60 [] 7).1).tasks,
        ta.id = a.id → tb.id = b.id → ∀ da db, ta.scheduled = some da →
        tb.scheduled = some db → a.deadline ≤ b.deadline → da ≤ db) :=
  backlog_order_and_deadline_dominance storeOrderAB 0 60 [] 7 (by decide) (by decide)
    (by decide)

end SmartLearning
